import Mathlib

/-!
Shallow embedding of the train-traffic-control core of this repository:

* `src/core/models.py`      — data model (`Block`, `Section`, `Train`, `TrainState`,
  `ScheduleDecision`);
* `src/core/optimizer.py`   — `HeuristicOptimizer.optimize` / `_schedule_train`;
* `src/core/safety_validator.py` — `CollisionDetector.validate_schedule`,
  `_build_occupancy_timeline`, `_check_head_on_collisions`, `verify_block_clearance`;
* `src/sim/enhanced_simulator.py` — `EnhancedSimulator.simulate`;
* `src/sim/simulator.py`    — `Simulator.simulate`.

Python floats (all lengths, speeds and times) are modelled as rationals `ℚ`;
every scenario considered is exact in `ℚ`.  Python dicts are association lists
with Python-3.7 dict semantics: updating an existing key keeps its position,
a new key is appended at the end; iteration follows this insertion order.
The human-readable `message` strings of violations and events (pure
presentation, built with `f"..."` float formatting) are not modelled; all other
fields of `SafetyViolation` and `Event` are.
-/

namespace TTC

/-- Python `k in d` for a dict rendered as an association list. -/
def hasKey {α β : Type} [DecidableEq α] : List (α × β) → α → Bool
  | [], _ => false
  | p :: rest, k => if p.1 = k then true else hasKey rest k

/-- Python dict write `d[k] = v`: update in place if `k` is present (keeping its
position), else append `(k, v)` at the end.  (Every dict in this embedding is
built from `[]` through `dictSet`/`dictAppend`, so keys are unique and
replacing the first occurrence is the same as replacing the only one.) -/
def dictSet {α β : Type} [DecidableEq α] : List (α × β) → α → β → List (α × β)
  | [], k, v => [(k, v)]
  | p :: rest, k, v => if p.1 = k then (k, v) :: rest else p :: dictSet rest k v

/-- Python dict read `d.get(k)`. -/
def dictGet? {α β : Type} [DecidableEq α] : List (α × β) → α → Option β
  | [], _ => none
  | p :: rest, k => if p.1 = k then some p.2 else dictGet? rest k

/-- Python `d.setdefault(k, []).append(v)`. -/
def dictAppend {α β : Type} [DecidableEq α] : List (α × List β) → α → β → List (α × List β)
  | [], k, v => [(k, [v])]
  | p :: rest, k, v =>
    if p.1 = k then (p.1, p.2 ++ [v]) :: rest else p :: dictAppend rest k v

/-- `Block` from `src/core/models.py`. -/
structure Block where
  id : String
  length_km : ℚ
  max_speed_kmph : ℚ
  direction : String
  station : Option String
  loop_capacity : ℤ
deriving DecidableEq, Inhabited

/-- `Section` from `src/core/models.py`. -/
structure Section where
  id : String
  blocks : List Block
  headway_min : ℚ
deriving DecidableEq, Inhabited

/-- `Train` from `src/core/models.py`. -/
structure Train where
  id : String
  priority : ℤ
  max_speed_kmph : ℚ
  dwell_min : ℚ
  route : List String
  direction : String
  dep_time_min : ℚ
  train_type : String
deriving DecidableEq, Inhabited

/-- `ScheduleDecision` from `src/core/models.py`: a dict train-id → (dict
block-id → planned entry time). -/
structure ScheduleDecision where
  entries : List (String × List (String × ℚ))
deriving DecidableEq, Inhabited

/-- Update (or create) the per-train sub-dict of a `ScheduleDecision`. -/
def setEntryGo (tid bid : String) (t : ℚ) :
    List (String × List (String × ℚ)) → List (String × List (String × ℚ))
  | [] => [(tid, [(bid, t)])]
  | p :: rest =>
    if p.1 = tid then (p.1, dictSet p.2 bid t) :: rest else p :: setEntryGo tid bid t rest

/-- `ScheduleDecision.set_entry`: `entries.setdefault(train_id, {})[block_id] = t`. -/
def ScheduleDecision.setEntry (s : ScheduleDecision) (tid bid : String) (t : ℚ) :
    ScheduleDecision :=
  ⟨setEntryGo tid bid t s.entries⟩

/-- `ScheduleDecision.get_entry`: `entries.get(train_id, {}).get(block_id)`. -/
def ScheduleDecision.getEntry (s : ScheduleDecision) (tid bid : String) : Option ℚ :=
  dictGet? ((dictGet? s.entries tid).getD []) bid

/-- `self.block_map = {b.id: b for b in section.blocks}` (built identically in the
optimizer, the validator and both simulators). -/
def blockMap (sec : Section) : List (String × Block) :=
  sec.blocks.foldl (fun d b => dictSet d b.id b) []

/-- `self.block_map[bid]`.  A missing id raises `KeyError` in Python; the
embedding returns the default block there, and every theorem that needs it
assumes the id exists. -/
def getBlock (sec : Section) (bid : String) : Block :=
  (dictGet? (blockMap sec) bid).getD default

/-- Python truthiness of the optional `block.station` string: `None` and `""`
are falsy. -/
def stationTruthy : Option String → Bool
  | none => false
  | some s => if s = "" then false else true

/-- Occupancy exit time as computed in `HeuristicOptimizer._schedule_train`
(optimizer.py lines 52-54): `entry + travel + dwell`. -/
def optExitTime (train : Train) (b : Block) (entry : ℚ) : ℚ :=
  entry + b.length_km / min train.max_speed_kmph b.max_speed_kmph * 60 +
    (if stationTruthy b.station then train.dwell_min else 0)

/-- Occupancy exit time as recomputed in
`CollisionDetector._build_occupancy_timeline` (safety_validator.py lines 96-98),
also used verbatim in `_check_head_on_collisions` (lines 123-125). -/
def valBuildExitTime (train : Train) (b : Block) (entry : ℚ) : ℚ :=
  entry + b.length_km / min train.max_speed_kmph b.max_speed_kmph * 60 +
    (if stationTruthy b.station then train.dwell_min else 0)

/-- Occupancy exit time as recomputed in `CollisionDetector.verify_block_clearance`
(safety_validator.py lines 165-167). -/
def valClearExitTime (train : Train) (b : Block) (entry : ℚ) : ℚ :=
  entry + b.length_km / min train.max_speed_kmph b.max_speed_kmph * 60 +
    (if stationTruthy b.station then train.dwell_min else 0)

/-- Occupancy exit time as computed in `EnhancedSimulator.simulate`
(enhanced_simulator.py lines 160-163): `entry + (travel + dwell)`. -/
def simExitTime (train : Train) (b : Block) (entry : ℚ) : ℚ :=
  entry + (b.length_km / min train.max_speed_kmph b.max_speed_kmph * 60 +
    (if stationTruthy b.station then train.dwell_min else 0))

/-- The sort key of `optimize`: `key=lambda t: (t.priority, t.dep_time_min)`,
as the corresponding total preorder. -/
def trainLE (a b : Train) : Prop :=
  a.priority < b.priority ∨ (a.priority = b.priority ∧ a.dep_time_min ≤ b.dep_time_min)

instance : DecidableRel trainLE := fun a b => by
  unfold trainLE; infer_instance

/-- Per-block occupancy state of one `optimize` call:
`block_id -> list of (entry_time, exit_time, train_id)` in append order. -/
abbrev Occ := List (String × List (ℚ × ℚ × String))

/-- `block_occupancy.get(bid, [])`-style read (the Python code guards the loop
with `if block_id in block_occupancy`, which is the same as looping over `[]`
when absent). -/
def occGet {γ : Type} (occ : List (String × List γ)) (bid : String) : List γ :=
  (dictGet? occ bid).getD []

/-- The conflict-adjustment loop of `_schedule_train` (optimizer.py lines 43-47):
`for occ_entry, occ_exit, occ_train_id in block_occupancy[block_id]:
   if entry_time < occ_exit + headway: entry_time = occ_exit + headway`. -/
def bumpEntry (h : ℚ) : ℚ → List (ℚ × ℚ × String) → ℚ
  | e, [] => e
  | e, iv :: rest => bumpEntry h (if e < iv.2.1 + h then iv.2.1 + h else e) rest

/-- The per-block walk of `_schedule_train` over the (remaining) route, carrying
the propagated entry candidate, the per-train schedule dict and the shared
block-occupancy dict. -/
def schedTrainGo (sec : Section) (train : Train) :
    List String → ℚ → List (String × ℚ) → Occ → List (String × ℚ) × Occ
  | [], _, ts, occ => (ts, occ)
  | bid :: rest, entry, ts, occ =>
    let b := getBlock sec bid
    let entry1 := bumpEntry sec.headway_min entry (occGet occ bid)
    let exit1 := optExitTime train b entry1
    schedTrainGo sec train rest exit1 (dictSet ts bid entry1)
      (dictAppend occ bid (entry1, exit1, train.id))

/-- `HeuristicOptimizer._schedule_train` (optimizer.py lines 32-64);
the initial candidate is `max(train.dep_time_min, current_time)`. -/
def scheduleTrain (sec : Section) (train : Train) (occ : Occ) (now : ℚ) :
    List (String × ℚ) × Occ :=
  schedTrainGo sec train train.route (max train.dep_time_min now) [] occ

/-- One iteration of the main loop of `optimize`: schedule one train, then copy
its per-block entries into the global `ScheduleDecision` in dict order. -/
def optStep (sec : Section) (now : ℚ) (acc : ScheduleDecision × Occ) (train : Train) :
    ScheduleDecision × Occ :=
  let r := scheduleTrain sec train acc.2 now
  (r.1.foldl (fun sch p => sch.setEntry train.id p.1 p.2) acc.1, r.2)

/-- `HeuristicOptimizer.optimize` together with its final internal
`block_occupancy` (needed by the proofs; the Python method returns only the
schedule).  Trains are processed in Python's stable sort order by
`(priority, dep_time_min)`. -/
def optimizeFull (sec : Section) (trains : List Train) (now : ℚ) :
    ScheduleDecision × Occ :=
  (List.insertionSort trainLE trains).foldl (optStep sec now) (⟨[]⟩, [])

/-- `HeuristicOptimizer.optimize` (optimizer.py lines 14-30). -/
def optimize (sec : Section) (trains : List Train) (now : ℚ) : ScheduleDecision :=
  (optimizeFull sec trains now).1

/-- `SafetyViolation` from `src/core/safety_validator.py` (the presentation-only
`message` field is not modelled). -/
structure SafetyViolation where
  train1_id : String
  train2_id : String
  block_id : String
  time : ℚ
  violation_type : String
  severity : String
deriving DecidableEq, Inhabited

/-- The inner route loop of `_build_occupancy_timeline`: per route block, if
the schedule has an entry (`is not None` — an entry of `0.0` is kept),
append the recomputed `(entry, exit, train_id)` interval. -/
def buildOccInner (sec : Section) (sched : ScheduleDecision) (train : Train) :
    List String → Occ → Occ
  | [], occ => occ
  | bid :: rest, occ =>
    match sched.getEntry train.id bid with
    | some e =>
      buildOccInner sec sched train rest
        (dictAppend occ bid (e, valBuildExitTime train (getBlock sec bid) e, train.id))
    | none => buildOccInner sec sched train rest occ

/-- `CollisionDetector._build_occupancy_timeline` (safety_validator.py lines
82-104): recompute each train's occupancy window per route block from the
schedule's entry times. -/
def buildOccupancyTimeline (sec : Section) (sched : ScheduleDecision)
    (trains : List Train) : Occ :=
  trains.foldl (fun occ train => buildOccInner sec sched train train.route occ) []

/-- The body of the adjacent-pair check of `validate_schedule` (safety_validator.py
lines 41-74) for one sorted-adjacent pair `x`, `y` of `(entry, exit, train_id)`
triples: a critical `COLLISION_RISK` when `entry2 < exit1` (and the overlap is
positive), then an `INSUFFICIENT_HEADWAY` warning when `0 ≤ entry2 - exit1 <
headway`. -/
def pairCheck (h : ℚ) (bid : String) (x y : ℚ × ℚ × String) : List SafetyViolation :=
  (if y.1 < x.2.1 ∧ x.2.1 - y.1 > 0 then
    [⟨x.2.2, y.2.2, bid, y.1, "COLLISION_RISK", "critical"⟩] else []) ++
  (if y.1 - x.2.1 < h ∧ y.1 - x.2.1 ≥ 0 then
    [⟨x.2.2, y.2.2, bid, y.1, "INSUFFICIENT_HEADWAY", "warning"⟩] else [])

/-- `for i in range(len(sorted_timeline) - 1)` of `validate_schedule`: apply
`pairCheck` to each adjacent pair. -/
def adjChecks (h : ℚ) (bid : String) : List (ℚ × ℚ × String) → List SafetyViolation
  | x :: y :: rest => pairCheck h bid x y ++ adjChecks h bid (y :: rest)
  | _ => []

/-- `sorted(timeline, key=lambda x: x[0])` as the corresponding total preorder. -/
def entryLE (x y : ℚ × ℚ × String) : Prop := x.1 ≤ y.1

instance : DecidableRel entryLE := fun x y => by
  unfold entryLE; infer_instance

/-- Head-on timeline entries also carry the train's direction:
`(entry, exit, train_id, direction)`. -/
abbrev HOcc := List (String × List (ℚ × ℚ × String × String))

/-- The inner route loop of `_check_head_on_collisions`' timeline build: a
train is included at a block only when `block.direction == "bi" or
block.direction == train.direction`. -/
def buildHOInner (sec : Section) (sched : ScheduleDecision) (train : Train) :
    List String → HOcc → HOcc
  | [], tl => tl
  | bid :: rest, tl =>
    match sched.getEntry train.id bid with
    | some e =>
      if (getBlock sec bid).direction = "bi" ∨
          (getBlock sec bid).direction = train.direction then
        buildHOInner sec sched train rest
          (dictAppend tl bid
            (e, valBuildExitTime train (getBlock sec bid) e, train.id, train.direction))
      else buildHOInner sec sched train rest tl
    | none => buildHOInner sec sched train rest tl

/-- The timeline built by `_check_head_on_collisions` (safety_validator.py
lines 113-129). -/
def buildHeadOnTimeline (sec : Section) (sched : ScheduleDecision)
    (trains : List Train) : HOcc :=
  trains.foldl (fun tl train => buildHOInner sec sched train train.route tl) []

/-- One pair test of `_check_head_on_collisions` (safety_validator.py lines
135-152): differing directions and overlapping windows, and no
station/loop on the block, yield a critical `HEAD_ON_COLLISION_RISK`. -/
def headOnPair (sec : Section) (bid : String) (x y : ℚ × ℚ × String × String) :
    List SafetyViolation :=
  if x.2.2.2 ≠ y.2.2.2 ∧ ¬(x.2.1 ≤ y.1 ∨ y.2.1 ≤ x.1) then
    if stationTruthy (getBlock sec bid).station then []
    else [⟨x.2.2.1, y.2.2.1, bid, max x.1 y.1, "HEAD_ON_COLLISION_RISK", "critical"⟩]
  else []

/-- Inner loop `for j in range(i + 1, len(timeline))`. -/
def headOnWith (sec : Section) (bid : String) (x : ℚ × ℚ × String × String) :
    List (ℚ × ℚ × String × String) → List SafetyViolation
  | [] => []
  | y :: rest => headOnPair sec bid x y ++ headOnWith sec bid x rest

/-- Outer loop `for i in range(len(timeline))` over every (unordered) pair. -/
def headOnScan (sec : Section) (bid : String) :
    List (ℚ × ℚ × String × String) → List SafetyViolation
  | [] => []
  | x :: rest => headOnWith sec bid x rest ++ headOnScan sec bid rest

/-- `CollisionDetector._check_head_on_collisions` (safety_validator.py lines
106-154). -/
def checkHeadOn (sec : Section) (sched : ScheduleDecision) (trains : List Train) :
    List SafetyViolation :=
  (buildHeadOnTimeline sec sched trains).foldl
    (fun acc p => acc ++ headOnScan sec p.1 p.2) []

/-- `any(v.severity == "critical" for v in violations)`. -/
def anyCritical : List SafetyViolation → Bool
  | [] => false
  | v :: rest => if v.severity = "critical" then true else anyCritical rest

/-- `CollisionDetector.validate_schedule` (safety_validator.py lines 27-80):
per-block adjacent-pair checks on the timeline sorted by entry time, then the
head-on check; `is_safe` iff no critical violation. -/
def validateSchedule (sec : Section) (sched : ScheduleDecision)
    (trains : List Train) : Bool × List SafetyViolation :=
  let occ := buildOccupancyTimeline sec sched trains
  let sameViols := occ.foldl
    (fun acc p => acc ++ adjChecks sec.headway_min p.1 (List.insertionSort entryLE p.2)) []
  let viols := sameViols ++ checkHeadOn sec sched trains
  (!anyCritical viols, viols)

/-- `CollisionDetector.verify_block_clearance` (safety_validator.py lines
156-171): `False` as soon as some train whose route contains the block has a
scheduled entry whose recomputed window `[entry, exit)` contains `time`. -/
def verifyBlockClearance (sec : Section) (bid : String) (time : ℚ)
    (sched : ScheduleDecision) : List Train → Bool
  | [] => true
  | train :: rest =>
    if bid ∈ train.route then
      match sched.getEntry train.id bid with
      | some e =>
        if e ≤ time ∧ time < valClearExitTime train (getBlock sec bid) e then false
        else verifyBlockClearance sec bid time sched rest
      | none => verifyBlockClearance sec bid time sched rest
    else verifyBlockClearance sec bid time sched rest

/-- `Event` from `src/sim/enhanced_simulator.py` (without the presentation-only
`message` field). -/
structure Event where
  timestamp : ℚ
  event_type : String
  train_id : Option String
  block_id : Option String
  severity : String
deriving DecidableEq, Inhabited

/-- A disruption record `{time, type, train_id, delay_min}` as consumed by both
simulators. -/
structure Disruption where
  time : ℚ
  dtype : String
  train_id : Option String
  delay_min : ℚ
deriving DecidableEq, Inhabited

/-- The mutable per-run fields of `TrainState` (models.py).  The `train`
reference is modelled by keying these records by train id; the shared, mutable
`Train` objects live in `SimState.trains`, so a disruption's mutation of
`dep_time_min` is visible everywhere, as in Python. -/
structure SimTrainState where
  route_index : ℕ
  time_min : ℚ
  finished : Bool
  delay_min : ℚ
  location : Option String
deriving DecidableEq, Inhabited

/-- The incrementally-updated fields of `EnhancedKPIs`; the purely final
derived rates (utilization, throughput, on-time %, safety score, distance and
average speed, enhanced_simulator.py lines 233-252) are not modelled — no
claim refers to them, and the raw data they are computed from (`busy`,
`events`, the per-train states) is. -/
structure EnhancedKPIs where
  total_trains : ℕ
  completed_trains : ℕ
  active_trains : ℕ
  total_delay_min : ℚ
  max_delay_min : ℚ
deriving DecidableEq, Inhabited

/-- The full mutable state of one `EnhancedSimulator.simulate` run. -/
structure SimState where
  trains : List Train
  states : List (String × SimTrainState)
  schedule : ScheduleDecision
  blockOcc : List (String × Option String)
  busy : List (String × ℚ)
  events : List Event
  kpis : EnhancedKPIs
  time : ℚ
deriving DecidableEq, Inhabited

/-- `self._log_event(...)` (without the message). -/
def logEvent (s : SimState) (ts : ℚ) (etype : String) (tid bid : Option String)
    (sev : String) : SimState :=
  { s with events := s.events ++ [⟨ts, etype, tid, bid, sev⟩] }

def findTrain : List Train → String → Option Train
  | [], _ => none
  | t :: rest, tid => if t.id = tid then some t else findTrain rest tid

/-- The current `Train` object with a given id (deps may have been mutated by
disruptions). -/
def getTrain (s : SimState) (tid : String) : Train :=
  (findTrain s.trains tid).getD default

def setTrainState (s : SimState) (tid : String) (st : SimTrainState) : SimState :=
  { s with states := dictSet s.states tid st }

/-- `EnhancedSimulator._apply_disruption` (enhanced_simulator.py lines 281-290):
`train_delay` adds `delay_min` to the train's departure time (mutating the
shared `Train` object); `block_failure` is a no-op. -/
def applyDisruption (s : SimState) (d : Disruption) : SimState :=
  if d.dtype = "train_delay" then
    match d.train_id with
    | some tid =>
      if hasKey s.states tid then
        { s with trains := s.trains.map (fun t =>
            if t.id = tid then { t with dep_time_min := t.dep_time_min + d.delay_min } else t) }
      else s
    | none => s
  else s

/-- `[ts.train for ts in train_states.values() if not ts.finished]`. -/
def activeTrains (s : SimState) : List Train :=
  (s.states.filter (fun p => !p.2.finished)).map (fun p => getTrain s p.1)

/-- One disruption of the per-tick disruption handling (enhanced_simulator.py
lines 101-118): fires when `abs(d.time - now) < time_step`; applies the
disruption, logs it, then re-optimizes over the unfinished trains with the
current clock as floor and logs any new critical violations as warnings. -/
def disruptStep (sec : Section) (step : ℚ) (s : SimState) (d : Disruption) : SimState :=
  if |d.time - s.time| < step then
    let s1 := logEvent (applyDisruption s d) s.time "DISRUPTION" d.train_id none "WARNING"
    let active := activeTrains s1
    if active = [] then s1
    else
      let sched := optimize sec active s1.time
      let r := validateSchedule sec sched active
      let s2 := { s1 with schedule := sched }
      if r.1 then s2
      else r.2.foldl (fun st v =>
        if v.severity = "critical" then
          logEvent st st.time "WARNING" none (some v.block_id) "WARNING"
        else st) s2
  else s

def disruptPhase (sec : Section) (step : ℚ) (ds : List Disruption) (s : SimState) :
    SimState :=
  ds.foldl (disruptStep sec step) s

/-- `sum(1 for ts in train_states.values() if not ts.finished and ts.location
is not None)`. -/
def activeCount : List (String × SimTrainState) → ℕ
  | [] => 0
  | p :: rest => (if ¬p.2.finished ∧ p.2.location ≠ none then 1 else 0) + activeCount rest

def approachCount (s : SimState) (bid : String) : List (String × SimTrainState) → ℕ
  | [] => 0
  | p :: rest =>
    (if ¬p.2.finished ∧ bid ∈ (getTrain s p.1).route then 1 else 0) +
      approachCount s bid rest

/-- `EnhancedSimulator._is_crossing_point` (enhanced_simulator.py lines 273-279). -/
def isCrossingPoint (s : SimState) (bid : String) : Bool :=
  if 1 < approachCount s bid s.states then true else false

/-- `scheduled_completion` (enhanced_simulator.py lines 203-207, identical in
simulator.py lines 113-117): total travel + dwell over the whole route. -/
def routeIdeal (sec : Section) (train : Train) : ℚ :=
  train.route.foldl (fun acc bid =>
    acc + ((getBlock sec bid).length_km /
        min train.max_speed_kmph (getBlock sec bid).max_speed_kmph * 60 +
      (if stationTruthy (getBlock sec bid).station then train.dwell_min else 0))) 0

/-- The per-train body of the main loop of `EnhancedSimulator.simulate`
(enhanced_simulator.py lines 125-216).  Note the Python entry gates test the
truthiness of the scheduled entry (`if scheduled_entry and ...`), so an entry
time of exactly `0.0` never passes; and in the in-transit case the current
block's occupancy is cleared and `route_index` is incremented *before* the
next block's entry conditions are checked. -/
def stepTrain (sec : Section) (s : SimState) (tid : String) : SimState :=
  match dictGet? s.states tid with
  | none => s
  | some st =>
    if st.finished then s
    else
      let train := getTrain s tid
      if st.route_index = 0 ∧ train.dep_time_min ≤ s.time then
        match train.route with
        | [] => s
        | firstB :: _ =>
          match s.schedule.getEntry tid firstB with
          | some e =>
            if e ≠ 0 ∧ e ≤ s.time then
              if verifyBlockClearance sec firstB s.time s.schedule s.trains then
                if dictGet? s.blockOcc firstB = some none then
                  let s1 := { s with blockOcc := dictSet s.blockOcc firstB (some tid) }
                  let s2 := setTrainState s1 tid
                    { st with location := some firstB, time_min := s.time }
                  logEvent s2 s.time "DEPARTURE" (some tid) (some firstB) "INFO"
                else s
              else logEvent s s.time "WARNING" (some tid) (some firstB) "WARNING"
            else s
          | none => s
      else
        match st.location with
        | some curB =>
          if curB = "" then s
          else
            let b := getBlock sec curB
            let total := b.length_km / min train.max_speed_kmph b.max_speed_kmph * 60 +
              (if stationTruthy b.station then train.dwell_min else 0)
            if st.time_min + total ≤ s.time then
              let s1 := { s with blockOcc := dictSet s.blockOcc curB none }
              let s2 := if stationTruthy b.station then
                  logEvent s1 s.time "ARRIVAL" (some tid) (some curB) "INFO"
                else s1
              let ri := st.route_index + 1
              match train.route.drop ri with
              | nextB :: _ =>
                match s2.schedule.getEntry tid nextB with
                | some e =>
                  if e ≠ 0 ∧ e ≤ s.time then
                    if verifyBlockClearance sec nextB s.time s2.schedule s2.trains then
                      if dictGet? s2.blockOcc nextB = some none then
                        let s3 := { s2 with blockOcc := dictSet s2.blockOcc nextB (some tid) }
                        let s4 := setTrainState s3 tid
                          { st with route_index := ri, location := some nextB, time_min := s.time }
                        if isCrossingPoint s4 nextB then
                          logEvent s4 s.time "CROSSING" (some tid) (some nextB) "INFO"
                        else s4
                      else setTrainState s2 tid { st with route_index := ri }
                    else
                      let s3 := logEvent s2 s.time "WARNING" (some tid) (some nextB) "WARNING"
                      setTrainState s3 tid { st with route_index := ri }
                  else setTrainState s2 tid { st with route_index := ri }
                | none => setTrainState s2 tid { st with route_index := ri }
              | [] =>
                let delayv := max 0 (s.time - (routeIdeal sec train + train.dep_time_min))
                let stF : SimTrainState :=
                  ⟨ri, st.time_min, true, delayv, none⟩
                let s3 := setTrainState s2 tid stF
                let s4 := { s3 with kpis := { s3.kpis with
                    completed_trains := s3.kpis.completed_trains + 1,
                    total_delay_min := s3.kpis.total_delay_min + delayv,
                    max_delay_min := max s3.kpis.max_delay_min delayv } }
                logEvent s4 s.time "COMPLETION" (some tid) none
                  (if delayv < 5 then "INFO" else "WARNING")
            else s
        | none => s

/-- `for train_id, state in train_states.items(): ...` — each train's step, in
dict order (keys are fixed at initialization). -/
def movePhase (sec : Section) (s : SimState) : SimState :=
  (s.states.map Prod.fst).foldl (stepTrain sec) s

/-- Per-tick block-utilization accrual (enhanced_simulator.py lines 219-221). -/
def busyPhase (step : ℚ) (s : SimState) : SimState :=
  { s with busy := s.busy.map (fun p =>
      match dictGet? s.blockOcc p.1 with
      | some (some _) => (p.1, p.2 + step)
      | _ => p) }

/-- One iteration of `while self.current_time <= max_time` (the
`realtime_callback` is `None` in every modelled run, so the callback block is
a no-op). -/
def simTick (sec : Section) (step : ℚ) (ds : List Disruption) (s : SimState) : SimState :=
  let s1 := disruptPhase sec step ds s
  let s2 := { s1 with kpis := { s1.kpis with active_trains := activeCount s1.states } }
  let s3 := movePhase sec s2
  let s4 := busyPhase step s3
  { s4 with time := s4.time + step }

/-- The pre-loop events of `EnhancedSimulator.simulate` (lines 76-95): the
initial-schedule validation report followed by the start event. -/
def initEvents (sec : Section) (trains : List Train) (sched : ScheduleDecision) :
    List Event :=
  let r := validateSchedule sec sched trains
  (if r.1 then [⟨0, "SYSTEM", none, none, "INFO"⟩]
   else r.2.foldl (fun acc v =>
     if v.severity = "critical" then acc ++ [⟨0, "ERROR", none, some v.block_id, "CRITICAL"⟩]
     else acc) [])
  ++ [⟨0, "SYSTEM", none, none, "INFO"⟩]

/-- The initial state of `EnhancedSimulator.simulate` (lines 68-98): states
keyed per train, initial schedule `optimize(trains)` (with default
`current_time = 0`), all blocks free. -/
def initSimState (sec : Section) (trains : List Train) : SimState :=
  let sched := optimize sec trains 0
  { trains := trains,
    states := trains.foldl (fun d t => dictSet d t.id ⟨0, t.dep_time_min, false, 0, none⟩) [],
    schedule := sched,
    blockOcc := sec.blocks.foldl (fun d b => dictSet d b.id none) [],
    busy := sec.blocks.foldl (fun d b => dictSet d b.id 0) [],
    events := initEvents sec trains sched,
    kpis := ⟨trains.length, 0, 0, 0, 0⟩,
    time := 0 }

/-- The main loop, driven by explicit fuel (the Python loop runs
`⌊max_time / time_step⌋ + 1` iterations; any sufficient fuel gives the same
final state because the loop guard is part of each step). -/
def simLoop (sec : Section) (step maxT : ℚ) (ds : List Disruption) :
    ℕ → SimState → SimState
  | 0, s => s
  | n + 1, s => if s.time ≤ maxT then simLoop sec step maxT ds n (simTick sec step ds s) else s

/-- `EnhancedSimulator.simulate` (enhanced_simulator.py lines 63-258), returning
the final run state (final states, KPIs and events are its fields). -/
def enhancedSimulate (sec : Section) (trains : List Train) (maxT step : ℚ)
    (ds : List Disruption) (fuel : ℕ) : SimState :=
  let s := simLoop sec step maxT ds fuel (initSimState sec trains)
  logEvent s s.time "SYSTEM" none none "INFO"

/-- The incrementally-updated fields of `SimulationKPIs` (simulator.py);
utilization and throughput are final derived rates, not modelled. -/
structure BasicKPIs where
  total_trains : ℕ
  completed_trains : ℕ
  total_delay_min : ℚ
deriving DecidableEq, Inhabited

/-- The mutable state of one `Simulator.simulate` run (simulator.py). -/
structure BasicState where
  trains : List Train
  states : List (String × SimTrainState)
  schedule : ScheduleDecision
  blockOcc : List (String × Option String)
  busy : List (String × ℚ)
  kpis : BasicKPIs
  time : ℚ
deriving DecidableEq, Inhabited

def getTrainB (s : BasicState) (tid : String) : Train :=
  (findTrain s.trains tid).getD default

def setTrainStateB (s : BasicState) (tid : String) (st : SimTrainState) : BasicState :=
  { s with states := dictSet s.states tid st }

/-- Python `int(x)` (truncation toward zero) on an exact rational clock. -/
def pyInt (q : ℚ) : ℤ :=
  q.num / (q.den : ℤ)

/-- `Simulator._apply_disruption` (simulator.py lines 137-148), identical to
the enhanced one. -/
def applyDisruptionB (s : BasicState) (d : Disruption) : BasicState :=
  if d.dtype = "train_delay" then
    match d.train_id with
    | some tid =>
      if hasKey s.states tid then
        { s with trains := s.trains.map (fun t =>
            if t.id = tid then { t with dep_time_min := t.dep_time_min + d.delay_min } else t) }
      else s
    | none => s
  else s

def activeTrainsB (s : BasicState) : List Train :=
  (s.states.filter (fun p => !p.2.finished)).map (fun p => getTrainB s p.1)

/-- One disruption of `Simulator.simulate`'s handling (simulator.py lines
52-60): fires when `d.time == int(current_time)`, then re-optimizes over the
unfinished trains. -/
def disruptStepB (sec : Section) (s : BasicState) (d : Disruption) : BasicState :=
  if d.time = ((pyInt s.time : ℤ) : ℚ) then
    let s1 := applyDisruptionB s d
    let active := activeTrainsB s1
    if active = [] then s1
    else { s1 with schedule := optimize sec active s1.time }
  else s

/-- The per-train body of the main loop of `Simulator.simulate` (simulator.py
lines 63-120): the same structure as the enhanced simulator, without the
clearance check and without events. -/
def stepTrainB (sec : Section) (s : BasicState) (tid : String) : BasicState :=
  match dictGet? s.states tid with
  | none => s
  | some st =>
    if st.finished then s
    else
      let train := getTrainB s tid
      if st.route_index = 0 ∧ train.dep_time_min ≤ s.time then
        match train.route with
        | [] => s
        | firstB :: _ =>
          match s.schedule.getEntry tid firstB with
          | some e =>
            if e ≠ 0 ∧ e ≤ s.time then
              if dictGet? s.blockOcc firstB = some none then
                let s1 := { s with blockOcc := dictSet s.blockOcc firstB (some tid) }
                setTrainStateB s1 tid { st with location := some firstB, time_min := s.time }
              else s
            else s
          | none => s
      else
        match st.location with
        | some curB =>
          if curB = "" then s
          else
            let b := getBlock sec curB
            let total := b.length_km / min train.max_speed_kmph b.max_speed_kmph * 60 +
              (if stationTruthy b.station then train.dwell_min else 0)
            if st.time_min + total ≤ s.time then
              let s1 := { s with blockOcc := dictSet s.blockOcc curB none }
              let ri := st.route_index + 1
              match train.route.drop ri with
              | nextB :: _ =>
                match s1.schedule.getEntry tid nextB with
                | some e =>
                  if e ≠ 0 ∧ e ≤ s.time then
                    if dictGet? s1.blockOcc nextB = some none then
                      let s2 := { s1 with blockOcc := dictSet s1.blockOcc nextB (some tid) }
                      setTrainStateB s2 tid
                        { st with route_index := ri, location := some nextB, time_min := s.time }
                    else setTrainStateB s1 tid { st with route_index := ri }
                  else setTrainStateB s1 tid { st with route_index := ri }
                | none => setTrainStateB s1 tid { st with route_index := ri }
              | [] =>
                let delayv := max 0 (s.time - (routeIdeal sec train + train.dep_time_min))
                let stF : SimTrainState := ⟨ri, st.time_min, true, delayv, none⟩
                let s2 := setTrainStateB s1 tid stF
                { s2 with kpis := { s2.kpis with
                    completed_trains := s2.kpis.completed_trains + 1,
                    total_delay_min := s2.kpis.total_delay_min + delayv } }
            else s
        | none => s

def movePhaseB (sec : Section) (s : BasicState) : BasicState :=
  (s.states.map Prod.fst).foldl (stepTrainB sec) s

def busyPhaseB (step : ℚ) (s : BasicState) : BasicState :=
  { s with busy := s.busy.map (fun p =>
      match dictGet? s.blockOcc p.1 with
      | some (some _) => (p.1, p.2 + step)
      | _ => p) }

/-- One iteration of `while current_time <= max_time` in `Simulator.simulate`. -/
def simTickB (sec : Section) (step : ℚ) (ds : List Disruption) (s : BasicState) :
    BasicState :=
  let s1 := ds.foldl (disruptStepB sec) s
  let s2 := movePhaseB sec s1
  let s3 := busyPhaseB step s2
  { s3 with time := s3.time + step }

/-- The initial state of `Simulator.simulate` (simulator.py lines 36-48). -/
def initBasicState (sec : Section) (trains : List Train) : BasicState :=
  { trains := trains,
    states := trains.foldl (fun d t => dictSet d t.id ⟨0, t.dep_time_min, false, 0, none⟩) [],
    schedule := optimize sec trains 0,
    blockOcc := sec.blocks.foldl (fun d b => dictSet d b.id none) [],
    busy := sec.blocks.foldl (fun d b => dictSet d b.id 0) [],
    kpis := ⟨trains.length, 0, 0⟩,
    time := 0 }

def simLoopB (sec : Section) (step maxT : ℚ) (ds : List Disruption) :
    ℕ → BasicState → BasicState
  | 0, s => s
  | n + 1, s =>
    if s.time ≤ maxT then simLoopB sec step maxT ds n (simTickB sec step ds s) else s

/-- `Simulator.simulate` (simulator.py lines 30-135), returning the final run
state. -/
def basicSimulate (sec : Section) (trains : List Train) (maxT step : ℚ)
    (ds : List Disruption) (fuel : ℕ) : BasicState :=
  simLoopB sec step maxT ds fuel (initBasicState sec trains)

/-! ### Proof-support predicates -/

/-- Separation of two occupancy intervals: the second enters at least `h`
minutes after the first exits. -/
def Sep {α : Type} (h : ℚ) (x y : ℚ × ℚ × α) : Prop := x.2.1 + h ≤ y.1

/-- Unordered separation. -/
def Sep2 {α : Type} (h : ℚ) (x y : ℚ × ℚ × α) : Prop := Sep h x y ∨ Sep h y x

/-- Provenance of an interval in the optimizer's occupancy store: it was
committed by some train satisfying `P`, on a block of its route, with the
optimizer's exit formula. -/
def IvFrom (sec : Section) (P : Train → Prop) (bid : String) (iv : ℚ × ℚ × String) :
    Prop :=
  ∃ t, P t ∧ bid ∈ t.route ∧ iv.2.2 = t.id ∧
    iv.2.1 = optExitTime t (getBlock sec bid) iv.1

/-- Invariant of the optimizer's `block_occupancy`: per block, intervals are
`h`-separated in commitment order, tagged with pairwise-distinct train ids, and
all committed by already-processed trains. -/
def OccInvP (sec : Section) (P : Train → Prop) (occ : Occ) : Prop :=
  ∀ bid, (occGet occ bid).Pairwise (Sep sec.headway_min) ∧
    ((occGet occ bid).map (fun iv => iv.2.2)).Nodup ∧
    (∀ iv ∈ occGet occ bid, IvFrom sec P bid iv)

/-- Link between the returned `ScheduleDecision` and the occupancy store: each
processed train's committed entry at each of its route blocks is retrievable
and matches a committed interval. -/
def BridgeP (sec : Section) (P : Train → Prop) (sched : ScheduleDecision)
    (occ : Occ) : Prop :=
  ∀ t, P t → ∀ bid ∈ t.route, ∃ e, sched.getEntry t.id bid = some e ∧
    (e, optExitTime t (getBlock sec bid) e, t.id) ∈ occGet occ bid

/-- The schedule only has sub-dicts for processed trains. -/
def SchedKeysP (P : Train → Prop) (sched : ScheduleDecision) : Prop :=
  ∀ tid, (dictGet? sched.entries tid).isSome = true → ∃ t, P t ∧ t.id = tid

/-- The hypotheses of claim C1, as stated there: positive block lengths and
speeds, nonnegative headway, pairwise-distinct train ids, positive train
speeds, routes over existing blocks with no repeated block.  (Dwell times are
not constrained by the claim.) -/
def C1Hyps (sec : Section) (trains : List Train) : Prop :=
  (∀ b ∈ sec.blocks, 0 < b.length_km ∧ 0 < b.max_speed_kmph) ∧
  0 ≤ sec.headway_min ∧
  (trains.map Train.id).Nodup ∧
  ∀ t ∈ trains, 0 < t.max_speed_kmph ∧ t.route.Nodup ∧
    ∀ bid ∈ t.route, ∃ b ∈ sec.blocks, b.id = bid

/-- The amended hypotheses: additionally every dwell time is nonnegative. -/
def C1HypsAmended (sec : Section) (trains : List Train) : Prop :=
  C1Hyps sec trains ∧ ∀ t ∈ trains, 0 ≤ t.dwell_min

/-- The head-on violations among a violation list. -/
def filterHeadOn : List SafetyViolation → List SafetyViolation
  | [] => []
  | v :: rest =>
    if v.violation_type = "HEAD_ON_COLLISION_RISK" then v :: filterHeadOn rest
    else filterHeadOn rest

/-! ### Concrete scenarios -/

/-- C8 / C1-witness scenario: one 10 km block at 100 km/h, headway 3. -/
def sec8 : Section := ⟨"S8", [⟨"B1", 10, 100, "up", none, 1⟩], 3⟩

def t8a : Train := ⟨"T1", 1, 100, 0, ["B1"], "up", 0, "EXPRESS"⟩

def t8b : Train := ⟨"T2", 1, 100, 0, ["B1"], "up", 1, "EXPRESS"⟩

/-- C1-counterexample scenario: a station block, a first train with negative
dwell (so its committed interval ends before it begins), a second, slow train. -/
def c1sec : Section := ⟨"S1", [⟨"b1", 10, 600, "bi", some "ST", 1⟩], 0⟩

def c1t1 : Train := ⟨"T1", 1, 600, -61, ["b1"], "up", 50, "X"⟩

def c1t2 : Train := ⟨"T2", 2, 6, 0, ["b1"], "up", 0, "X"⟩

/-- C2-counterexample scenario: a slow high-priority train occupying
`[10, 20)`, and a fast low-priority train that could run `[0, 5)` clear of it. -/
def c2sec : Section := ⟨"S2", [⟨"b1", 10, 120, "up", none, 1⟩], 3⟩

def c2ta : Train := ⟨"TA", 1, 60, 0, ["b1"], "up", 10, "X"⟩

def c2tb : Train := ⟨"TB", 2, 120, 0, ["b1"], "up", 0, "X"⟩

/-- C3-counterexample scenarios: a non-bidirectional (`"up"`) block without a
station, and the same with a station; two opposite trains with overlapping
recomputed windows `[0, 10)` and `[5, 15)`. -/
def c3secA : Section := ⟨"S3A", [⟨"b1", 10, 60, "up", none, 1⟩], 3⟩

def c3secB : Section := ⟨"S3B", [⟨"b2", 10, 60, "up", some "ST", 1⟩], 3⟩

def c3up : Train := ⟨"TU", 1, 60, 0, ["b1"], "up", 0, "X"⟩

def c3dn : Train := ⟨"TD", 1, 60, 0, ["b1"], "down", 0, "X"⟩

def c3upB : Train := ⟨"TU", 1, 60, 0, ["b2"], "up", 0, "X"⟩

def c3dnB : Train := ⟨"TD", 1, 60, 0, ["b2"], "down", 0, "X"⟩

def c3schedA : ScheduleDecision := ⟨[("TU", [("b1", 0)]), ("TD", [("b1", 5)])]⟩

def c3schedB : ScheduleDecision := ⟨[("TU", [("b2", 0)]), ("TD", [("b2", 5)])]⟩

/-- C3-witness scenarios: the same two opposite trains with overlapping
windows on a *bidirectional* block, without and with a station. -/
def c3biSec : Section := ⟨"S3W", [⟨"b3", 10, 60, "bi", none, 1⟩], 3⟩

def c3biSecS : Section := ⟨"S3WS", [⟨"b3", 10, 60, "bi", some "ST", 1⟩], 3⟩

def c3biU : Train := ⟨"TU", 1, 60, 0, ["b3"], "up", 0, "X"⟩

def c3biD : Train := ⟨"TD", 1, 60, 0, ["b3"], "down", 0, "X"⟩

def c3biSched : ScheduleDecision := ⟨[("TU", [("b3", 0)]), ("TD", [("b3", 5)])]⟩

/-- C7-counterexample scenario: the schedule holds an entry for train `T` at
block `B`, but `B` is not on `T`'s route. -/
def c7sec : Section :=
  ⟨"S7", [⟨"A", 1, 60, "up", none, 1⟩, ⟨"B", 1, 60, "up", none, 1⟩], 3⟩

def c7train : Train := ⟨"T", 1, 60, 0, ["A"], "up", 0, "X"⟩

def c7sched : ScheduleDecision := ⟨[("T", [("B", 5)])]⟩

/-- C4 failing scenario: a two-block route; a disruption delays the departure
mid-transit, after which the scheduled entry to block `B` lies far in the
future, so the entry gate fails — and the code increments `route_index` anyway. -/
def c4sec : Section :=
  ⟨"S4", [⟨"A", 1, 60, "up", none, 1⟩, ⟨"B", 2, 60, "up", none, 1⟩], 3⟩

def c4train : Train := ⟨"T", 1, 60, 0, ["A", "B"], "up", 1, "X"⟩

def c4disr : Disruption := ⟨3, "train_delay", some "T", 100⟩

/-- C6-counterexample scenario: one block; a disruption shifts the departure
offset (to 101) while the train is in transit; the completion-delay formula
then uses the mutated offset. -/
def c6sec : Section := ⟨"S6", [⟨"b1", 1, 60, "up", none, 1⟩], 3⟩

def c6train : Train := ⟨"T", 1, 60, 0, ["b1"], "up", 1, "X"⟩

def c6disr : Disruption := ⟨3, "train_delay", some "T", 100⟩

/-- C6-witness state: train `T` (current departure offset 101) in transit on
`b1` since minute 2, clock at 3, about to complete. -/
def c6wTrain : Train := ⟨"T", 1, 60, 0, ["b1"], "up", 101, "X"⟩

def c6wState : SimState :=
  ⟨[c6wTrain], [("T", ⟨0, 2, false, 0, some "b1"⟩)], ⟨[]⟩,
    [("b1", some "T")], [("b1", 0)], [], ⟨1, 0, 0, 0, 0⟩, 3⟩

/-- C10-witness scenario: a train whose optimized entry time at its first
block is exactly `0`. -/
def c10sec : Section := ⟨"S10", [⟨"A", 1, 60, "up", none, 1⟩], 3⟩

def c10train : Train := ⟨"T", 1, 60, 0, ["A"], "up", 0, "X"⟩

/-- C10-witness per-tick states: the schedule maps the first block to
entry time exactly `0`. -/
def c10wState : SimState :=
  ⟨[c10train], [("T", ⟨0, 0, false, 0, none⟩)], ⟨[("T", [("A", 0)])]⟩,
    [("A", none)], [("A", 0)], [], ⟨1, 0, 0, 0, 0⟩, 0⟩

def c10wStateB : BasicState :=
  ⟨[c10train], [("T", ⟨0, 0, false, 0, none⟩)], ⟨[("T", [("A", 0)])]⟩,
    [("A", none)], [("A", 0)], ⟨1, 0, 0⟩, 0⟩

/-! ### Dictionary lemmas -/

theorem dictGet?_dictSet {α β : Type} [DecidableEq α] (d : List (α × β)) (k k' : α)
    (v : β) :
    dictGet? (dictSet d k v) k' = if k' = k then some v else dictGet? d k' := by
  induction d with
  | nil =>
    by_cases h : k' = k
    · simp [dictSet, dictGet?, h]
    · have h' : ¬ k = k' := fun he => h he.symm
      simp [dictSet, dictGet?, h, h']
  | cons p rest ih =>
    by_cases hp : p.1 = k
    · by_cases h : k' = k
      · simp [dictSet, dictGet?, hp, h]
      · have h' : ¬ k = k' := fun he => h he.symm
        have hpk : ¬ p.1 = k' := fun he => h' (hp ▸ he)
        simp [dictSet, dictGet?, hp, h, h', hpk]
    · by_cases h : p.1 = k'
      · have hk : ¬ k' = k := fun he => hp (h.trans he)
        simp [dictSet, dictGet?, hp, h, hk]
      · simp [dictSet, dictGet?, hp, h, ih]

theorem dictGet?_dictAppend {α β : Type} [DecidableEq α] (d : List (α × List β))
    (k k' : α) (v : β) :
    dictGet? (dictAppend d k v) k' =
      if k' = k then some ((dictGet? d k).getD [] ++ [v]) else dictGet? d k' := by
  induction d with
  | nil =>
    by_cases h : k' = k
    · simp [dictAppend, dictGet?, h]
    · have h' : ¬ k = k' := fun he => h he.symm
      simp [dictAppend, dictGet?, h, h']
  | cons p rest ih =>
    by_cases hp : p.1 = k
    · by_cases h : k' = k
      · simp [dictAppend, dictGet?, hp, h]
      · have h' : ¬ k = k' := fun he => h he.symm
        have hpk : ¬ p.1 = k' := fun he => h' (hp ▸ he)
        simp [dictAppend, dictGet?, hp, h, h', hpk]
    · by_cases h : p.1 = k'
      · have hk : ¬ k' = k := fun he => hp (h.trans he)
        simp [dictAppend, dictGet?, hp, h, hk]
      · simp [dictAppend, dictGet?, hp, h, ih]

theorem occGet_dictAppend {γ : Type} (occ : List (String × List γ)) (k k' : String)
    (iv : γ) :
    occGet (dictAppend occ k iv) k' =
      if k' = k then occGet occ k ++ [iv] else occGet occ k' := by
  unfold occGet
  rw [dictGet?_dictAppend]
  by_cases h : k' = k <;> simp [h]

theorem dictGet?_setEntryGo_self (es : List (String × List (String × ℚ)))
    (tid bid : String) (t : ℚ) :
    dictGet? (setEntryGo tid bid t es) tid =
      some (dictSet ((dictGet? es tid).getD []) bid t) := by
  induction es with
  | nil => simp [setEntryGo, dictGet?, dictSet]
  | cons p rest ih =>
    by_cases hp : p.1 = tid
    · simp [setEntryGo, dictGet?, hp]
    · simp [setEntryGo, dictGet?, hp, ih]

theorem dictGet?_setEntryGo_ne (es : List (String × List (String × ℚ)))
    (tid bid tid' : String) (t : ℚ) (h : tid' ≠ tid) :
    dictGet? (setEntryGo tid bid t es) tid' = dictGet? es tid' := by
  have h' : ¬ tid = tid' := fun he => h he.symm
  induction es with
  | nil => simp [setEntryGo, dictGet?, h']
  | cons p rest ih =>
    by_cases hp : p.1 = tid
    · have hpt : ¬ p.1 = tid' := fun he => h' (hp ▸ he)
      simp [setEntryGo, dictGet?, hp, hpt, h']
    · by_cases hq : p.1 = tid'
      · simp [setEntryGo, dictGet?, hp, hq, h]
      · simp [setEntryGo, dictGet?, hp, hq, ih]

theorem getEntry_setEntry_self (s : ScheduleDecision) (tid bid bid' : String) (t : ℚ) :
    (s.setEntry tid bid t).getEntry tid bid' =
      dictGet? (dictSet ((dictGet? s.entries tid).getD []) bid t) bid' := by
  unfold ScheduleDecision.setEntry ScheduleDecision.getEntry
  rw [dictGet?_setEntryGo_self]
  rfl

theorem getEntry_setEntry_ne (s : ScheduleDecision) (tid bid tid' bid' : String)
    (t : ℚ) (h : tid' ≠ tid) :
    (s.setEntry tid bid t).getEntry tid' bid' = s.getEntry tid' bid' := by
  unfold ScheduleDecision.setEntry ScheduleDecision.getEntry
  rw [dictGet?_setEntryGo_ne _ _ _ _ _ h]

theorem setEntryGo_isSome (es : List (String × List (String × ℚ)))
    (tid bid tid' : String) (t : ℚ)
    (h : (dictGet? (setEntryGo tid bid t es) tid').isSome = true) :
    tid' = tid ∨ (dictGet? es tid').isSome = true := by
  by_cases he : tid' = tid
  · exact Or.inl he
  · right
    rwa [dictGet?_setEntryGo_ne _ _ _ _ _ he] at h

/-! ### Lemmas on the conflict-adjustment loop -/

theorem bumpEntry_init_le (h : ℚ) (l : List (ℚ × ℚ × String)) :
    ∀ e : ℚ, e ≤ bumpEntry h e l := by
  induction l with
  | nil => intro e; simp [bumpEntry]
  | cons iv rest ih =>
    intro e
    simp only [bumpEntry]
    refine le_trans ?_ (ih _)
    split_ifs with hc
    · linarith
    · exact le_refl e

theorem bumpEntry_mem_le (h : ℚ) (l : List (ℚ × ℚ × String)) :
    ∀ e : ℚ, ∀ iv ∈ l, iv.2.1 + h ≤ bumpEntry h e l := by
  induction l with
  | nil => intro e iv hm; cases hm
  | cons y rest ih =>
    intro e iv hm
    simp only [bumpEntry]
    rcases List.mem_cons.mp hm with he | hm'
    · subst he
      refine le_trans ?_ (bumpEntry_init_le h rest _)
      split_ifs with hc
      · exact le_refl _
      · linarith
    · exact ih _ iv hm'

theorem bumpEntry_le_of (h : ℚ) (l : List (ℚ × ℚ × String)) :
    ∀ e c : ℚ, e ≤ c → (∀ iv ∈ l, iv.2.1 + h ≤ c) → bumpEntry h e l ≤ c := by
  induction l with
  | nil => intro e c h1 _; simpa [bumpEntry] using h1
  | cons y rest ih =>
    intro e c h1 h2
    simp only [bumpEntry]
    refine ih _ _ ?_ (fun iv hm => h2 iv (List.mem_cons_of_mem _ hm))
    split_ifs with hc
    · exact h2 y (List.mem_cons_self _ _)
    · exact h1

/-! ### Claim theorems: C2, C5, C8, C9 -/

/-- C2: the claim says a block's committed entry time is the larger of the
propagated candidate and the smallest time keeping `headway` clearance past
the exits of committed intervals *that would otherwise overlap*, and that a
train is never delayed by an interval it does not conflict with.  What the
adjustment loop of `_schedule_train` actually computes (this theorem) is the
smallest time that is at least the propagated candidate and at least
`exit + headway` for **every** already-committed interval on the block —
conflicting or not. -/
theorem C2_entry_is_sup_of_all_exits (h e : ℚ) (l : List (ℚ × ℚ × String)) :
    e ≤ bumpEntry h e l ∧ (∀ iv ∈ l, iv.2.1 + h ≤ bumpEntry h e l) ∧
    (∀ c, e ≤ c → (∀ iv ∈ l, iv.2.1 + h ≤ c) → bumpEntry h e l ≤ c) :=
  ⟨bumpEntry_init_le h l e, bumpEntry_mem_le h l e, fun c h1 h2 =>
    bumpEntry_le_of h l e c h1 h2⟩

/-- Witness for C2: with committed interval `(10, 20)` and propagated
candidate `21`, headway `3`, the loop's result is bounded exactly as the
characterization states (so it equals `23`). -/
theorem C2_entry_is_sup_witness :
    (21 : ℚ) ≤ bumpEntry 3 21 [(10, 20, "TA")] ∧
      (20 : ℚ) + 3 ≤ bumpEntry 3 21 [(10, 20, "TA")] ∧
      bumpEntry 3 21 [(10, 20, "TA")] ≤ 23 := by
  refine ⟨(C2_entry_is_sup_of_all_exits 3 21 [(10, 20, "TA")]).1, ?_, ?_⟩
  · exact (C2_entry_is_sup_of_all_exits 3 21 [(10, 20, "TA")]).2.1 (10, 20, "TA")
      (List.mem_singleton.mpr rfl)
  · refine (C2_entry_is_sup_of_all_exits 3 21 [(10, 20, "TA")]).2.2 23 (by norm_num) ?_
    intro iv hm
    rw [List.mem_singleton.mp hm]
    norm_num

/-- C2 counterexample: train `TA` (priority 1) is committed `[10, 20)` on
`b1`; train `TB` (priority 2, departure 0, travel 5) could run `[0, 5)`,
which neither overlaps `[10, 20)` nor violates the 3-minute headway
(`5 + 3 ≤ 10`).  The claim therefore assigns `TB` entry `0`; the code
commits `max(0, 20 + 3) = 23`. -/
theorem C2_counterexample :
    (optimize c2sec [c2ta, c2tb] 0).getEntry "TA" "b1" = some 10 ∧
    (optimize c2sec [c2ta, c2tb] 0).getEntry "TB" "b1" = some 23 ∧
    ((5 : ℚ) + 3 ≤ 10) ∧ ((23 : ℚ) ≠ 0) := by
  refine ⟨?_, ?_, by norm_num, by norm_num⟩ <;>
    norm_num [optimize, optimizeFull, optStep, scheduleTrain, schedTrainGo,
      c2sec, c2ta, c2tb, List.insertionSort, List.orderedInsert, trainLE,
      bumpEntry, occGet, dictGet?, dictSet, dictAppend, setEntryGo, getBlock,
      blockMap, optExitTime, stationTruthy, ScheduleDecision.setEntry,
      ScheduleDecision.getEntry]

/-- C5: the per-adjacent-pair emission of `validate_schedule` (for a
nonnegative headway minimum `h`): a critical collision risk exactly when
`exit₁ > entry₂`; otherwise a warning insufficient-headway violation exactly
when the gap is in `[0, h)`; nothing when the gap is at least `h` (in
particular nothing at a gap of exactly `h`); and a negative gap produces the
collision violation *instead of* the headway warning. -/
theorem C5_adjacent_pair_trichotomy (h : ℚ) (bid : String) (x y : ℚ × ℚ × String)
    (hh : 0 ≤ h) :
    (y.1 < x.2.1 →
      pairCheck h bid x y = [⟨x.2.2, y.2.2, bid, y.1, "COLLISION_RISK", "critical"⟩]) ∧
    (x.2.1 ≤ y.1 → y.1 - x.2.1 < h →
      pairCheck h bid x y =
        [⟨x.2.2, y.2.2, bid, y.1, "INSUFFICIENT_HEADWAY", "warning"⟩]) ∧
    (h ≤ y.1 - x.2.1 → pairCheck h bid x y = []) := by
  refine ⟨fun hlt => ?_, fun hle hlt => ?_, fun hge => ?_⟩
  · rw [pairCheck, if_pos ⟨hlt, by linarith⟩, if_neg (by intro hc; linarith [hc.2])]
    rfl
  · rw [pairCheck, if_neg (by intro hc; linarith [hc.1]), if_pos ⟨hlt, by linarith⟩]
    rfl
  · rw [pairCheck, if_neg (by intro hc; linarith [hc.1]),
      if_neg (by intro hc; linarith [hc.1])]
    rfl

/-- Witness for C5: concrete instances of all three cases
(`exit₁ = 6 > entry₂ = 5`; gap `9 - 6 = 3 ≥ 3`; gap `7 - 6 = 1 ∈ [0, 3)`). -/
theorem C5_adjacent_pair_witness :
    pairCheck 3 "B1" (0, 6, "T1") (5, 15, "T2") =
      [⟨"T1", "T2", "B1", 5, "COLLISION_RISK", "critical"⟩] ∧
    pairCheck 3 "B1" (0, 6, "T1") (7, 15, "T2") =
      [⟨"T1", "T2", "B1", 7, "INSUFFICIENT_HEADWAY", "warning"⟩] ∧
    pairCheck 3 "B1" (0, 6, "T1") (9, 15, "T2") = [] := by
  refine ⟨?_, ?_, ?_⟩
  · exact (C5_adjacent_pair_trichotomy 3 "B1" (0, 6, "T1") (5, 15, "T2")
      (by norm_num)).1 (by norm_num)
  · exact (C5_adjacent_pair_trichotomy 3 "B1" (0, 6, "T1") (7, 15, "T2")
      (by norm_num)).2.1 (by norm_num) (by norm_num)
  · exact (C5_adjacent_pair_trichotomy 3 "B1" (0, 6, "T1") (9, 15, "T2")
      (by norm_num)).2.2 (by norm_num)

/-- C8: the spec's worked example.  Single block of 10 km at 100 km/h
(travel 6 min), headway 3; Train1 (priority 1, departs 0) gets entry 0;
Train2 (priority 1, departs 1) gets entry `max(1, 0 + 6 + 3) = 9`. -/
theorem C8_worked_example :
    (optimize sec8 [t8a, t8b] 0).getEntry "T1" "B1" = some 0 ∧
    (optimize sec8 [t8a, t8b] 0).getEntry "T2" "B1" = some 9 := by
  constructor <;>
    norm_num [optimize, optimizeFull, optStep, scheduleTrain, schedTrainGo,
      sec8, t8a, t8b, List.insertionSort, List.orderedInsert, trainLE,
      bumpEntry, occGet, dictGet?, dictSet, dictAppend, setEntryGo, getBlock,
      blockMap, optExitTime, stationTruthy, ScheduleDecision.setEntry,
      ScheduleDecision.getEntry]

/-- C9: the Scheduler (`_schedule_train`), the SafetyValidator (both its
occupancy rebuild and its clearance query) and the SimulationEngine compute
the identical occupancy window: all four embedded exit-time functions are
equal as functions of `(train, block, entry)`. -/
theorem C9_exit_time_refinement :
    (∀ (t : Train) (b : Block) (e : ℚ), optExitTime t b e = valBuildExitTime t b e) ∧
    (∀ (t : Train) (b : Block) (e : ℚ), valBuildExitTime t b e = valClearExitTime t b e) ∧
    (∀ (t : Train) (b : Block) (e : ℚ), valClearExitTime t b e = simExitTime t b e) := by
  refine ⟨fun _ _ _ => rfl, fun _ _ _ => rfl, fun t b e => ?_⟩
  unfold valClearExitTime simExitTime
  ring

/-! ### C7: clearance query -/

/-- C7 (amended): `verify_block_clearance` returns `True` iff no train *whose
route contains the block* has a schedule entry there whose recomputed window
`[entry, exit)` contains `time` — there is no exclusion of a querying train,
but a schedule entry for a block that is not on the train's route is ignored. -/
theorem C7_clearance_iff (sec : Section) (bid : String) (time : ℚ)
    (sched : ScheduleDecision) (trains : List Train) :
    verifyBlockClearance sec bid time sched trains = true ↔
    ∀ train ∈ trains, bid ∈ train.route →
      ∀ e, sched.getEntry train.id bid = some e →
        ¬(e ≤ time ∧ time < valClearExitTime train (getBlock sec bid) e) := by
  induction trains with
  | nil => simp [verifyBlockClearance]
  | cons tr rest ih =>
    by_cases hr : bid ∈ tr.route
    · cases hE : sched.getEntry tr.id bid with
      | none =>
        simp only [verifyBlockClearance, if_pos hr, hE]
        rw [ih]
        constructor
        · intro hrest train hm hroute e he
          rcases List.mem_cons.mp hm with he' | hm'
          · subst he'; rw [hE] at he; cases he
          · exact hrest train hm' hroute e he
        · intro hall train hm hroute e he
          exact hall train (List.mem_cons_of_mem _ hm) hroute e he
      | some e0 =>
        by_cases hc : e0 ≤ time ∧ time < valClearExitTime tr (getBlock sec bid) e0
        · simp only [verifyBlockClearance, if_pos hr, hE, if_pos hc]
          constructor
          · intro hfalse; exact absurd hfalse (by simp)
          · intro hall
            exact absurd hc (hall tr (List.mem_cons_self _ _) hr e0 hE)
        · simp only [verifyBlockClearance, if_pos hr, hE, if_neg hc]
          rw [ih]
          constructor
          · intro hrest train hm hroute e he
            rcases List.mem_cons.mp hm with he' | hm'
            · subst he'
              rw [hE] at he
              cases he
              exact hc
            · exact hrest train hm' hroute e he
          · intro hall train hm hroute e he
            exact hall train (List.mem_cons_of_mem _ hm) hroute e he
    · simp only [verifyBlockClearance, if_neg hr]
      rw [ih]
      constructor
      · intro hrest train hm hroute e he
        rcases List.mem_cons.mp hm with he' | hm'
        · subst he'; exact absurd hroute hr
        · exact hrest train hm' hroute e he
      · intro hall train hm hroute e he
        exact hall train (List.mem_cons_of_mem _ hm) hroute e he

/-- Witness for C7: a concrete clearance query answered `True` through the
characterization (the schedule has no entry at block `A`). -/
theorem C7_clearance_iff_witness :
    verifyBlockClearance c7sec "A" 99 c7sched [c7train] = true := by
  refine (C7_clearance_iff c7sec "A" 99 c7sched [c7train]).mpr ?_
  intro train hm hroute e he
  rcases List.mem_cons.mp hm with he' | h0
  · subst he'
    rw [show c7sched.getEntry c7train.id "A" = none by
      simp [c7sched, c7train, ScheduleDecision.getEntry, dictGet?]] at he
    cases he
  · cases h0

/-- C7 counterexample: the claim as stated has no route condition, so it says
this query must return `False`: train `T` has a schedule entry at block `B`
whose recomputed window `[5, 6)` contains time `5`.  But `B` is not on `T`'s
route, so the code returns `True`. -/
theorem C7_counterexample :
    verifyBlockClearance c7sec "B" 5 c7sched [c7train] = true ∧
    c7sched.getEntry "T" "B" = some 5 ∧
    ((5 : ℚ) ≤ 5 ∧ (5 : ℚ) < valClearExitTime c7train (getBlock c7sec "B") 5) := by
  refine ⟨?_, ?_, ?_⟩
  · simp [verifyBlockClearance, c7sec, c7train, c7sched]
  · simp [c7sched, ScheduleDecision.getEntry, dictGet?]
  · refine ⟨le_refl _, ?_⟩
    simp [valClearExitTime, getBlock, blockMap, dictSet, dictGet?, c7sec,
      c7train, stationTruthy]

/-! ### C3: head-on check -/

theorem pairCheck_types (h : ℚ) (bid : String) (x y : ℚ × ℚ × String)
    (v : SafetyViolation) (hv : v ∈ pairCheck h bid x y) :
    v.violation_type = "COLLISION_RISK" ∨ v.violation_type = "INSUFFICIENT_HEADWAY" := by
  unfold pairCheck at hv
  rcases List.mem_append.mp hv with h1 | h1 <;> revert h1 <;> split_ifs <;> intro h1
  · left; rw [List.mem_singleton.mp h1]
  · cases h1
  · right; rw [List.mem_singleton.mp h1]
  · cases h1

theorem adjChecks_types (h : ℚ) (bid : String) :
    ∀ (L : List (ℚ × ℚ × String)) (v : SafetyViolation), v ∈ adjChecks h bid L →
      v.violation_type = "COLLISION_RISK" ∨ v.violation_type = "INSUFFICIENT_HEADWAY" := by
  intro L
  induction L with
  | nil => intro v hv; simp [adjChecks] at hv
  | cons x rest ih =>
    cases rest with
    | nil => intro v hv; simp [adjChecks] at hv
    | cons y rest' =>
      intro v hv
      rw [adjChecks] at hv
      rcases List.mem_append.mp hv with h1 | h1
      · exact pairCheck_types h bid x y v h1
      · exact ih v h1

theorem filterHeadOn_append (a b : List SafetyViolation) :
    filterHeadOn (a ++ b) = filterHeadOn a ++ filterHeadOn b := by
  induction a with
  | nil => rfl
  | cons v rest ih =>
    by_cases hv : v.violation_type = "HEAD_ON_COLLISION_RISK" <;>
      simp [filterHeadOn, hv, ih]

theorem filterHeadOn_eq_nil (l : List SafetyViolation)
    (h : ∀ v ∈ l, v.violation_type ≠ "HEAD_ON_COLLISION_RISK") :
    filterHeadOn l = [] := by
  induction l with
  | nil => rfl
  | cons v rest ih =>
    rw [filterHeadOn, if_neg (h v (List.mem_cons_self _ _))]
    exact ih fun u hu => h u (List.mem_cons_of_mem _ hu)

theorem mem_foldl_append {α β : Type} (f : β → List α) (l : List β) :
    ∀ (init : List α) (v : α),
      v ∈ l.foldl (fun acc p => acc ++ f p) init ↔ v ∈ init ∨ ∃ p ∈ l, v ∈ f p := by
  induction l with
  | nil => intro init v; simp
  | cons p rest ih =>
    intro init v
    simp only [List.foldl_cons]
    rw [ih]
    simp [List.mem_append, or_assoc]

/-- C3 (amended): the head-on check collects only trains *physically
permitted* on a block (matching direction, or bidirectional block), so two
opposite-direction trains can meet only on a **bidirectional** block.  There,
with overlapping recomputed windows and no station, `validate_schedule` emits
exactly one critical head-on violation; with a station, it emits zero head-on
violations (the same-block collision checks are unaffected). -/
theorem C3_head_on_amended (sec : Section) (bid : String) (t1 t2 : Train)
    (sched : ScheduleDecision) (e1 e2 : ℚ)
    (hb : (getBlock sec bid).direction = "bi")
    (hr1 : t1.route = [bid]) (hr2 : t2.route = [bid])
    (hd : t1.direction ≠ t2.direction)
    (hE1 : sched.getEntry t1.id bid = some e1)
    (hE2 : sched.getEntry t2.id bid = some e2)
    (hov : ¬(valBuildExitTime t1 (getBlock sec bid) e1 ≤ e2 ∨
             valBuildExitTime t2 (getBlock sec bid) e2 ≤ e1)) :
    (stationTruthy (getBlock sec bid).station = false →
      filterHeadOn (validateSchedule sec sched [t1, t2]).2 =
        [⟨t1.id, t2.id, bid, max e1 e2, "HEAD_ON_COLLISION_RISK", "critical"⟩]) ∧
    (stationTruthy (getBlock sec bid).station = true →
      filterHeadOn (validateSchedule sec sched [t1, t2]).2 = []) := by
  have hHO : checkHeadOn sec sched [t1, t2] =
      headOnPair sec bid
        (e1, valBuildExitTime t1 (getBlock sec bid) e1, t1.id, t1.direction)
        (e2, valBuildExitTime t2 (getBlock sec bid) e2, t2.id, t2.direction) := by
    simp [checkHeadOn, buildHeadOnTimeline, buildHOInner, hr1, hr2, hE1, hE2,
      hb, dictAppend, headOnScan, headOnWith]
  have hV2 : (validateSchedule sec sched [t1, t2]).2 =
      (buildOccupancyTimeline sec sched [t1, t2]).foldl
        (fun acc p =>
          acc ++ adjChecks sec.headway_min p.1 (List.insertionSort entryLE p.2)) [] ++
        checkHeadOn sec sched [t1, t2] := rfl
  have hSame : filterHeadOn ((buildOccupancyTimeline sec sched [t1, t2]).foldl
      (fun acc p =>
        acc ++ adjChecks sec.headway_min p.1 (List.insertionSort entryLE p.2)) []) = [] := by
    refine filterHeadOn_eq_nil _ ?_
    intro v hv
    rcases (mem_foldl_append _ _ _ _).mp hv with h0 | ⟨p, _, hvp⟩
    · cases h0
    · rcases adjChecks_types sec.headway_min p.1 _ v hvp with h' | h' <;> simp [h']
  constructor
  · intro hst
    rw [hV2, filterHeadOn_append, hSame, hHO]
    unfold headOnPair
    rw [if_pos ⟨hd, hov⟩, if_neg (by rw [hst]; simp)]
    simp [filterHeadOn]
  · intro hst
    rw [hV2, filterHeadOn_append, hSame, hHO]
    unfold headOnPair
    rw [if_pos ⟨hd, hov⟩, if_pos hst]
    rfl

/-- Witness for C3: on the bidirectional block `b3` with windows `[0, 10)` and
`[5, 15)`, exactly one critical head-on violation without a station, none with
a station. -/
theorem C3_head_on_witness :
    filterHeadOn (validateSchedule c3biSec c3biSched [c3biU, c3biD]).2 =
      [⟨"TU", "TD", "b3", max 0 5, "HEAD_ON_COLLISION_RISK", "critical"⟩] ∧
    filterHeadOn (validateSchedule c3biSecS c3biSched [c3biU, c3biD]).2 = [] := by
  constructor
  · exact (C3_head_on_amended c3biSec "b3" c3biU c3biD c3biSched 0 5
      (by simp [getBlock, blockMap, dictSet, dictGet?, c3biSec])
      rfl rfl (by simp [c3biU, c3biD])
      (by simp [c3biSched, c3biU, ScheduleDecision.getEntry, dictGet?])
      (by simp [c3biSched, c3biD, ScheduleDecision.getEntry, dictGet?])
      (by
        simp [valBuildExitTime, getBlock, blockMap, dictSet, dictGet?, c3biSec,
          c3biU, c3biD, stationTruthy]
        norm_num)).1
      (by simp [getBlock, blockMap, dictSet, dictGet?, c3biSec, stationTruthy])
  · exact (C3_head_on_amended c3biSecS "b3" c3biU c3biD c3biSched 0 5
      (by simp [getBlock, blockMap, dictSet, dictGet?, c3biSecS])
      rfl rfl (by simp [c3biU, c3biD])
      (by simp [c3biSched, c3biU, ScheduleDecision.getEntry, dictGet?])
      (by simp [c3biSched, c3biD, ScheduleDecision.getEntry, dictGet?])
      (by
        simp [valBuildExitTime, getBlock, blockMap, dictSet, dictGet?, c3biSecS,
          c3biU, c3biD, stationTruthy]
        norm_num)).2
      (by simp [getBlock, blockMap, dictSet, dictGet?, c3biSecS, stationTruthy])

/-- C3 counterexample: two opposite-direction trains with overlapping
recomputed windows `[0, 10)` and `[5, 15)` on the **non-bidirectional**
(`"up"`) station-less block `b1` yield zero head-on violations (the claim says
exactly one), because the down train is filtered out as not physically
permitted; and the same overlap on the station block `b2` still yields a
(collision-risk) violation from the same-block check (the claim says zero
violations of any kind). -/
theorem C3_counterexample :
    checkHeadOn c3secA c3schedA [c3up, c3dn] = [] ∧
    (validateSchedule c3secB c3schedB [c3upB, c3dnB]).2 =
      [⟨"TU", "TD", "b2", 5, "COLLISION_RISK", "critical"⟩] ∧
    ¬(((0 : ℚ) + 10 ≤ 5) ∨ ((5 : ℚ) + 10 ≤ 0)) := by
  refine ⟨?_, ?_, by norm_num⟩
  · simp [checkHeadOn, buildHeadOnTimeline, buildHOInner, c3secA, c3schedA,
      c3up, c3dn, ScheduleDecision.getEntry, dictGet?, dictAppend, getBlock,
      blockMap, dictSet, headOnScan, headOnWith, headOnPair, stationTruthy]
  · simp [validateSchedule, buildOccupancyTimeline, buildOccInner, checkHeadOn,
      buildHeadOnTimeline, buildHOInner, c3secB, c3schedB, c3upB, c3dnB,
      ScheduleDecision.getEntry, dictGet?, dictAppend, getBlock, blockMap,
      dictSet, headOnScan, headOnWith, headOnPair, stationTruthy,
      valBuildExitTime, anyCritical]
    norm_num [List.insertionSort, List.orderedInsert, entryLE, adjChecks,
      pairCheck, headOnPair, stationTruthy, anyCritical]

/-! ### C1 support: block lookup, positivity, pairwise and key lemmas -/

theorem foldInsert_lookup (blocks : List Block) :
    ∀ (d : List (String × Block)) (bid : String) (b : Block),
      dictGet? (blocks.foldl (fun d b => dictSet d b.id b) d) bid = some b →
      (b ∈ blocks ∧ b.id = bid) ∨ dictGet? d bid = some b := by
  induction blocks with
  | nil => intro d bid b h; exact Or.inr h
  | cons blk rest ih =>
    intro d bid b h
    rcases ih _ _ _ h with ⟨hm, hid⟩ | h'
    · exact Or.inl ⟨List.mem_cons_of_mem _ hm, hid⟩
    · rw [dictGet?_dictSet] at h'
      by_cases he : bid = blk.id
      · rw [if_pos he] at h'
        cases h'
        exact Or.inl ⟨List.mem_cons_self _ _, he.symm⟩
      · rw [if_neg he] at h'
        exact Or.inr h'

theorem foldInsert_isSome (blocks : List Block) :
    ∀ (d : List (String × Block)) (bid : String),
      ((∃ b ∈ blocks, b.id = bid) ∨ (dictGet? d bid).isSome = true) →
      (dictGet? (blocks.foldl (fun d b => dictSet d b.id b) d) bid).isSome = true := by
  induction blocks with
  | nil =>
    intro d bid h
    rcases h with ⟨b, hb, _⟩ | h
    · cases hb
    · exact h
  | cons blk rest ih =>
    intro d bid h
    apply ih
    rcases h with ⟨b, hb, hid⟩ | h
    · rcases List.mem_cons.mp hb with he | hm
      · right
        rw [dictGet?_dictSet, if_pos (by rw [← hid, he])]
        rfl
      · exact Or.inl ⟨b, hm, hid⟩
    · right
      rw [dictGet?_dictSet]
      by_cases he : bid = blk.id
      · rw [if_pos he]; rfl
      · rwa [if_neg he]

theorem getBlock_mem (sec : Section) (bid : String)
    (h : ∃ b ∈ sec.blocks, b.id = bid) :
    getBlock sec bid ∈ sec.blocks ∧ (getBlock sec bid).id = bid := by
  have hs := foldInsert_isSome sec.blocks [] bid (Or.inl h)
  obtain ⟨b, hb⟩ := Option.isSome_iff_exists.mp hs
  rcases foldInsert_lookup sec.blocks [] bid b hb with ⟨hm, hid⟩ | hcontra
  · unfold getBlock blockMap
    rw [hb]
    exact ⟨hm, hid⟩
  · simp [dictGet?] at hcontra

theorem travel_pos (sec : Section) (t : Train) (bid : String)
    (hsec : ∀ b ∈ sec.blocks, 0 < b.length_km ∧ 0 < b.max_speed_kmph)
    (hts : 0 < t.max_speed_kmph)
    (hex : ∃ b ∈ sec.blocks, b.id = bid) :
    0 < (getBlock sec bid).length_km /
      min t.max_speed_kmph (getBlock sec bid).max_speed_kmph * 60 := by
  obtain ⟨hm, _⟩ := getBlock_mem sec bid hex
  obtain ⟨hl, hs⟩ := hsec _ hm
  have hmin : 0 < min t.max_speed_kmph (getBlock sec bid).max_speed_kmph :=
    lt_min hts hs
  have := div_pos hl hmin
  linarith

theorem optExitTime_gt (sec : Section) (t : Train) (bid : String) (e : ℚ)
    (hsec : ∀ b ∈ sec.blocks, 0 < b.length_km ∧ 0 < b.max_speed_kmph)
    (hts : 0 < t.max_speed_kmph) (hdw : 0 ≤ t.dwell_min)
    (hex : ∃ b ∈ sec.blocks, b.id = bid) :
    e < optExitTime t (getBlock sec bid) e := by
  have htr := travel_pos sec t bid hsec hts hex
  unfold optExitTime
  split_ifs <;> linarith

theorem sep2_symm {γ : Type} (h : ℚ) : Symmetric (Sep2 (α := γ) h) := by
  intro x y hxy
  rcases hxy with hs | hs
  · exact Or.inr hs
  · exact Or.inl hs

theorem pairwise_sep2_of_mem {γ : Type} (h : ℚ) (l : List (ℚ × ℚ × γ))
    (hp : l.Pairwise (Sep h)) {x y : ℚ × ℚ × γ} (hx : x ∈ l) (hy : y ∈ l)
    (hne : x ≠ y) : Sep2 h x y := by
  have hp2 : l.Pairwise (Sep2 h) := hp.imp fun hs => Or.inl hs
  exact hp2.forall (sep2_symm h) hx hy hne

theorem IvFrom_mono (sec : Section) {P Q : Train → Prop} (hpq : ∀ u, P u → Q u)
    (bid : String) (iv : ℚ × ℚ × String) (h : IvFrom sec P bid iv) :
    IvFrom sec Q bid iv := by
  obtain ⟨t, ht, h1, h2, h3⟩ := h
  exact ⟨t, hpq t ht, h1, h2, h3⟩

theorem not_mem_keys_dictGet? {α β : Type} [DecidableEq α] :
    ∀ (d : List (α × β)) (k : α), k ∉ d.map Prod.fst → dictGet? d k = none := by
  intro d
  induction d with
  | nil => intro k _; rfl
  | cons p rest ih =>
    intro k hk
    have h1 : ¬ p.1 = k := fun he => hk (by simp [he])
    rw [dictGet?, if_neg h1]
    exact ih k fun hm => hk (by simp [hm])

theorem dictSet_keys_of_not_mem {α β : Type} [DecidableEq α] :
    ∀ (d : List (α × β)) (k : α) (v : β), k ∉ d.map Prod.fst →
      (dictSet d k v).map Prod.fst = d.map Prod.fst ++ [k] := by
  intro d
  induction d with
  | nil => intro k v _; rfl
  | cons p rest ih =>
    intro k v hk
    have h1 : ¬ p.1 = k := fun he => hk (by simp [he])
    have hk' : k ∉ List.map Prod.fst rest := fun hm =>
      hk (by simp only [List.map_cons, List.mem_cons]; exact Or.inr hm)
    rw [dictSet, if_neg h1]
    simp [ih _ v hk']

theorem dictAppend_keys {γ : Type} :
    ∀ (d : List (String × List γ)) (k : String) (v : γ),
      (dictAppend d k v).map Prod.fst = d.map Prod.fst ∨
      (dictAppend d k v).map Prod.fst = d.map Prod.fst ++ [k] := by
  intro d
  induction d with
  | nil => intro k v; right; rfl
  | cons p rest ih =>
    intro k v
    by_cases h1 : p.1 = k
    · left; rw [dictAppend, if_pos h1]; simp
    · rw [dictAppend, if_neg h1]
      rcases ih k v with h | h
      · left; simp [h]
      · right; simp [h]

theorem dictAppend_keys_nodup {γ : Type} (d : List (String × List γ)) (k : String)
    (v : γ) (hnd : (d.map Prod.fst).Nodup) :
    ((dictAppend d k v).map Prod.fst).Nodup := by
  induction d with
  | nil => simp [dictAppend]
  | cons p rest ih =>
    by_cases h1 : p.1 = k
    · rw [dictAppend, if_pos h1]
      simpa using hnd
    · rw [dictAppend, if_neg h1]
      simp only [List.map_cons, List.nodup_cons] at hnd ⊢
      refine ⟨?_, ih hnd.2⟩
      intro hmem
      rcases dictAppend_keys rest k v with he | he
      · exact hnd.1 (he ▸ hmem)
      · rw [he] at hmem
        rcases List.mem_append.mp hmem with hm | hm
        · exact hnd.1 hm
        · exact h1 (List.mem_singleton.mp hm)

theorem occGet_of_mem {γ : Type} :
    ∀ (d : List (String × List γ)) (p : String × List γ),
      (d.map Prod.fst).Nodup → p ∈ d → dictGet? d p.1 = some p.2 := by
  intro d
  induction d with
  | nil => intro p _ hp; cases hp
  | cons q rest ih =>
    intro p hnd hp
    simp only [List.map_cons, List.nodup_cons] at hnd
    rcases List.mem_cons.mp hp with he | hm
    · subst he
      rw [dictGet?, if_pos rfl]
    · have h1 : ¬ q.1 = p.1 := by
        intro he
        exact hnd.1 (he ▸ List.mem_map_of_mem Prod.fst hm)
      rw [dictGet?, if_neg h1]
      exact ih p hnd.2 hm

theorem foldl_append_eq_nil {α β : Type} (f : β → List α) :
    ∀ (l : List β) (init : List α), (∀ p ∈ l, f p = []) →
      l.foldl (fun acc p => acc ++ f p) init = init := by
  intro l
  induction l with
  | nil => intro init _; rfl
  | cons p rest ih =>
    intro init h
    simp only [List.foldl_cons]
    rw [h p (List.mem_cons_self _ _), List.append_nil]
    exact ih init fun q hq => h q (List.mem_cons_of_mem _ hq)

instance : IsTotal (ℚ × ℚ × String) entryLE :=
  ⟨fun x y => le_total x.1 y.1⟩

instance : IsTrans (ℚ × ℚ × String) entryLE :=
  ⟨fun _ _ _ h1 h2 => le_trans h1 h2⟩

theorem optExit_eq_valBuild :
    ∀ (t : Train) (b : Block) (e : ℚ), optExitTime t b e = valBuildExitTime t b e :=
  fun _ _ _ => rfl

/-- The per-train walk of `_schedule_train` preserves the occupancy-store
invariants, appends exactly one `h`-separated, freshly-tagged interval per
route block, and records exactly those entries in the per-train dict. -/
theorem schedTrainGo_spec (sec : Section) (t : Train) :
    ∀ (rs : List String) (P : Train → Prop) (entry : ℚ) (ts : List (String × ℚ))
      (occ : Occ),
      rs.Nodup → (∀ bid ∈ rs, bid ∈ t.route) →
      (∀ bid ∈ rs, ∀ iv ∈ occGet occ bid, iv.2.2 ≠ t.id) →
      (∀ bid, (occGet occ bid).Pairwise (Sep sec.headway_min)) →
      (∀ bid, ((occGet occ bid).map (fun iv => iv.2.2)).Nodup) →
      (∀ bid, ∀ iv ∈ occGet occ bid, IvFrom sec P bid iv) →
      (ts.map Prod.fst).Nodup → (∀ bid ∈ rs, bid ∉ ts.map Prod.fst) →
      (∀ bid, (occGet (schedTrainGo sec t rs entry ts occ).2 bid).Pairwise
        (Sep sec.headway_min)) ∧
      (∀ bid, ((occGet (schedTrainGo sec t rs entry ts occ).2 bid).map
        (fun iv => iv.2.2)).Nodup) ∧
      (∀ bid, ∀ iv ∈ occGet (schedTrainGo sec t rs entry ts occ).2 bid,
        IvFrom sec (fun u => P u ∨ u = t) bid iv) ∧
      (∀ bid, ∀ iv ∈ occGet occ bid,
        iv ∈ occGet (schedTrainGo sec t rs entry ts occ).2 bid) ∧
      (∀ bid ∈ rs, ∃ e, dictGet? (schedTrainGo sec t rs entry ts occ).1 bid = some e ∧
        (e, optExitTime t (getBlock sec bid) e, t.id) ∈
          occGet (schedTrainGo sec t rs entry ts occ).2 bid) ∧
      (∀ bid, bid ∉ rs →
        dictGet? (schedTrainGo sec t rs entry ts occ).1 bid = dictGet? ts bid) ∧
      ((schedTrainGo sec t rs entry ts occ).1.map Prod.fst).Nodup := by
  intro rs
  induction rs with
  | nil =>
    intro P entry ts occ _ _ _ hpw hnd2 hprov hts1 _
    refine ⟨hpw, hnd2, ?_, fun _ _ h => h, ?_, fun _ _ => rfl, hts1⟩
    · exact fun bid iv hiv =>
        IvFrom_mono sec (fun u hu => Or.inl hu) bid iv (hprov bid iv hiv)
    · exact fun bid hb => absurd hb (List.not_mem_nil _)
  | cons bid0 rest ih =>
    intro P entry ts occ hnd hsub hfresh hpw hnd2 hprov hts1 hts2
    obtain ⟨hb0, hndr⟩ := List.nodup_cons.mp hnd
    simp only [schedTrainGo]
    have hmem0 : bid0 ∈ bid0 :: rest := List.mem_cons_self _ _
    -- Abbreviations (these are the let-bound values of `schedTrainGo`).
    have key :
        ∀ bid, occGet (dictAppend occ bid0
            (bumpEntry sec.headway_min entry (occGet occ bid0),
             optExitTime t (getBlock sec bid0)
               (bumpEntry sec.headway_min entry (occGet occ bid0)), t.id)) bid =
          if bid = bid0 then occGet occ bid0 ++
            [(bumpEntry sec.headway_min entry (occGet occ bid0),
              optExitTime t (getBlock sec bid0)
                (bumpEntry sec.headway_min entry (occGet occ bid0)), t.id)]
          else occGet occ bid := fun bid => occGet_dictAppend occ bid0 bid _
    obtain ⟨g1, g2, g3, g4, g5, g6, g7⟩ :=
      ih (fun u => P u ∨ u = t)
        (optExitTime t (getBlock sec bid0)
          (bumpEntry sec.headway_min entry (occGet occ bid0)))
        (dictSet ts bid0 (bumpEntry sec.headway_min entry (occGet occ bid0)))
        (dictAppend occ bid0
          (bumpEntry sec.headway_min entry (occGet occ bid0),
           optExitTime t (getBlock sec bid0)
             (bumpEntry sec.headway_min entry (occGet occ bid0)), t.id))
        hndr (fun bid hb => hsub bid (List.mem_cons_of_mem _ hb))
        (by
          intro bid hb iv hiv
          have hne : ¬ bid = bid0 := fun he => hb0 (he ▸ hb)
          rw [key bid, if_neg hne] at hiv
          exact hfresh bid (List.mem_cons_of_mem _ hb) iv hiv)
        (by
          intro bid
          rw [key bid]
          by_cases hb : bid = bid0
          · rw [if_pos hb]
            rw [List.pairwise_append]
            refine ⟨hpw bid0, List.pairwise_singleton _ _, ?_⟩
            intro a ha c hc
            rw [List.mem_singleton.mp hc]
            exact bumpEntry_mem_le sec.headway_min (occGet occ bid0) entry a ha
          · rw [if_neg hb]; exact hpw bid)
        (by
          intro bid
          rw [key bid]
          by_cases hb : bid = bid0
          · rw [if_pos hb]
            rw [List.map_append, List.nodup_append]
            refine ⟨hnd2 bid0, List.nodup_singleton _, ?_⟩
            intro a ha hc
            simp only [List.map_cons, List.map_nil, List.mem_singleton] at hc
            obtain ⟨iv, hiv, hiva⟩ := List.mem_map.mp ha
            exact hfresh bid0 hmem0 iv hiv (by rw [hiva, hc])
          · rw [if_neg hb]; exact hnd2 bid)
        (by
          intro bid iv hiv
          rw [key bid] at hiv
          by_cases hb : bid = bid0
          · subst hb
            rw [if_pos rfl] at hiv
            rcases List.mem_append.mp hiv with hm | hm
            · exact IvFrom_mono sec (fun u hu => Or.inl hu) bid iv (hprov bid iv hm)
            · rw [List.mem_singleton.mp hm]
              exact ⟨t, Or.inr rfl, hsub bid hmem0, rfl, rfl⟩
          · rw [if_neg hb] at hiv
            exact IvFrom_mono sec (fun u hu => Or.inl hu) bid iv (hprov bid iv hiv))
        (by
          have hknd := dictSet_keys_of_not_mem ts bid0
            (bumpEntry sec.headway_min entry (occGet occ bid0)) (hts2 bid0 hmem0)
          rw [hknd]
          simp only [List.nodup_append, List.nodup_singleton]
          refine ⟨hts1, trivial, ?_⟩
          intro a ha hc
          rw [List.mem_singleton.mp hc] at ha
          exact hts2 bid0 hmem0 ha)
        (by
          intro bid hb
          have hknd := dictSet_keys_of_not_mem ts bid0
            (bumpEntry sec.headway_min entry (occGet occ bid0)) (hts2 bid0 hmem0)
          rw [hknd, List.mem_append, List.mem_singleton]
          rintro (hm | he)
          · exact hts2 bid (List.mem_cons_of_mem _ hb) hm
          · exact hb0 (he ▸ hb))
    refine ⟨g1, g2, ?_, ?_, ?_, ?_, g7⟩
    · intro bid iv hiv
      refine IvFrom_mono sec ?_ bid iv (g3 bid iv hiv)
      rintro u (hu | hu)
      · exact hu
      · exact Or.inr hu
    · intro bid iv hiv
      apply g4
      rw [key bid]
      by_cases hb : bid = bid0
      · rw [if_pos hb]
        exact List.mem_append_left _ (hb ▸ hiv)
      · rw [if_neg hb]; exact hiv
    · intro bid hb
      rcases List.mem_cons.mp hb with he | hm
      · subst he
        refine ⟨bumpEntry sec.headway_min entry (occGet occ bid), ?_, ?_⟩
        · rw [g6 bid hb0, dictGet?_dictSet, if_pos rfl]
        · apply g4
          rw [key bid, if_pos rfl]
          exact List.mem_append_right _ (List.mem_singleton.mpr rfl)
      · exact g5 bid hm
    · intro bid hb
      have hbr : bid ∉ rest := fun hm => hb (List.mem_cons_of_mem _ hm)
      have hbb : ¬ bid = bid0 := fun he => hb (he ▸ hmem0)
      rw [g6 bid hbr, dictGet?_dictSet, if_neg hbb]

theorem getEntry_foldSetEntry (pairs : List (String × ℚ)) :
    ∀ (sched : ScheduleDecision) (tid bid : String),
      (pairs.foldl (fun sch p => sch.setEntry tid p.1 p.2) sched).getEntry tid bid =
        dictGet? (pairs.foldl (fun d p => dictSet d p.1 p.2)
          ((dictGet? sched.entries tid).getD [])) bid := by
  induction pairs with
  | nil => intro sched tid bid; rfl
  | cons q rest ih =>
    intro sched tid bid
    simp only [List.foldl_cons]
    rw [ih]
    have he : (ScheduleDecision.setEntry sched tid q.1 q.2).entries =
        setEntryGo tid q.1 q.2 sched.entries := rfl
    rw [he, dictGet?_setEntryGo_self]
    rfl

theorem getEntry_foldSetEntry_ne (pairs : List (String × ℚ)) :
    ∀ (sched : ScheduleDecision) (tid tid' bid : String), tid' ≠ tid →
      (pairs.foldl (fun sch p => sch.setEntry tid p.1 p.2) sched).getEntry tid' bid =
        sched.getEntry tid' bid := by
  induction pairs with
  | nil => intro sched tid tid' bid _; rfl
  | cons q rest ih =>
    intro sched tid tid' bid h
    simp only [List.foldl_cons]
    rw [ih _ _ _ _ h, getEntry_setEntry_ne _ _ _ _ _ _ h]

theorem foldl_dictSet_lookup (pairs : List (String × ℚ)) :
    ∀ (d : List (String × ℚ)) (bid : String),
      (pairs.map Prod.fst).Nodup →
      (∀ k ∈ pairs.map Prod.fst, dictGet? d k = none) →
      dictGet? (pairs.foldl (fun d p => dictSet d p.1 p.2) d) bid =
        match dictGet? pairs bid with
        | some v => some v
        | none => dictGet? d bid := by
  induction pairs with
  | nil => intro d bid _ _; rfl
  | cons q rest ih =>
    intro d bid hnd hnone
    simp only [List.map_cons, List.nodup_cons] at hnd
    simp only [List.foldl_cons]
    rw [ih (dictSet d q.1 q.2) bid hnd.2 (by
      intro k hk
      have hne : ¬ k = q.1 := fun he => hnd.1 (he ▸ hk)
      rw [dictGet?_dictSet, if_neg hne]
      exact hnone k (List.mem_cons_of_mem _ hk))]
    by_cases hb : q.1 = bid
    · have hrest : dictGet? rest bid = none :=
        not_mem_keys_dictGet? rest bid (fun hm => hnd.1 (hb ▸ hm))
      rw [dictGet?, if_pos hb, hrest, dictGet?_dictSet, if_pos hb.symm]
    · rw [dictGet?, if_neg hb]
      cases hr : dictGet? rest bid with
      | some v => rfl
      | none =>
        rw [dictGet?_dictSet, if_neg (fun he => hb he.symm)]

theorem foldSetEntry_keys (pairs : List (String × ℚ)) :
    ∀ (sched : ScheduleDecision) (tid tid' : String),
      (dictGet? (pairs.foldl (fun sch p => sch.setEntry tid p.1 p.2) sched).entries
        tid').isSome = true →
      tid' = tid ∨ (dictGet? sched.entries tid').isSome = true := by
  induction pairs with
  | nil => intro sched tid tid' h; exact Or.inr h
  | cons q rest ih =>
    intro sched tid tid' h
    simp only [List.foldl_cons] at h
    rcases ih _ _ _ h with he | hs
    · exact Or.inl he
    · exact setEntryGo_isSome _ _ _ _ _ hs

theorem OccInvP_mono (sec : Section) {P Q : Train → Prop} (h : ∀ u, P u → Q u)
    (occ : Occ) (hocc : OccInvP sec P occ) : OccInvP sec Q occ := by
  intro bid
  exact ⟨(hocc bid).1, (hocc bid).2.1,
    fun iv hiv => IvFrom_mono sec h bid iv ((hocc bid).2.2 iv hiv)⟩

theorem BridgeP_anti (sec : Section) {P Q : Train → Prop} (h : ∀ u, Q u → P u)
    (sched : ScheduleDecision) (occ : Occ) (hbr : BridgeP sec P sched occ) :
    BridgeP sec Q sched occ :=
  fun u hu => hbr u (h u hu)

theorem SchedKeysP_mono {P Q : Train → Prop} (h : ∀ u, P u → Q u)
    (sched : ScheduleDecision) (hk : SchedKeysP P sched) : SchedKeysP Q sched := by
  intro tid hs
  obtain ⟨u, hu, hid⟩ := hk tid hs
  exact ⟨u, h u hu, hid⟩

/-- The invariant of `optimize`'s main loop: after each processed train, the
occupancy store stays pairwise `h`-separated per block with distinct train
tags and full provenance, and the schedule faithfully records every processed
train's committed entries. -/
theorem optFold_spec (sec : Section) (now : ℚ) :
    ∀ (l : List Train) (P : Train → Prop) (sched : ScheduleDecision) (occ : Occ),
      (∀ t ∈ l, t.route.Nodup) →
      ((l.map Train.id).Nodup) →
      (∀ t ∈ l, ∀ u, P u → u.id ≠ t.id) →
      OccInvP sec P occ → BridgeP sec P sched occ → SchedKeysP P sched →
      OccInvP sec (fun u => P u ∨ u ∈ l) (l.foldl (optStep sec now) (sched, occ)).2 ∧
      BridgeP sec (fun u => P u ∨ u ∈ l) (l.foldl (optStep sec now) (sched, occ)).1
        (l.foldl (optStep sec now) (sched, occ)).2 ∧
      SchedKeysP (fun u => P u ∨ u ∈ l) (l.foldl (optStep sec now) (sched, occ)).1 := by
  intro l
  induction l with
  | nil =>
    intro P sched occ _ _ _ hocc hbr hkeys
    refine ⟨OccInvP_mono sec (fun u hu => Or.inl hu) occ hocc,
      BridgeP_anti sec ?_ sched occ hbr,
      SchedKeysP_mono (fun u hu => Or.inl hu) sched hkeys⟩
    rintro u (hu | hu)
    · exact hu
    · cases hu
  | cons t rest ih =>
    intro P sched occ hrt hids hforb hocc hbr hkeys
    have hmem0 : t ∈ t :: rest := List.mem_cons_self _ _
    simp only [List.map_cons, List.nodup_cons] at hids
    obtain ⟨g1, g2, g3, g4, g5, g6, g7⟩ :=
      schedTrainGo_spec sec t t.route P (max t.dep_time_min now) [] occ
        (hrt t hmem0) (fun _ hb => hb)
        (by
          intro bid _ iv hiv
          obtain ⟨u, hu, _, htid, _⟩ := (hocc bid).2.2 iv hiv
          rw [htid]
          exact hforb t hmem0 u hu)
        (fun bid => (hocc bid).1) (fun bid => (hocc bid).2.1)
        (fun bid => (hocc bid).2.2)
        (by simp) (by simp)
    have hsub_none : dictGet? sched.entries t.id = none := by
      by_cases hs : (dictGet? sched.entries t.id).isSome = true
      · obtain ⟨u, hu, hid⟩ := hkeys _ hs
        exact absurd hid (hforb t hmem0 u hu)
      · exact Option.not_isSome_iff_eq_none.mp hs
    simp only [List.foldl_cons]
    have hstep : optStep sec now (sched, occ) t =
        ((scheduleTrain sec t occ now).1.foldl
          (fun sch p => sch.setEntry t.id p.1 p.2) sched,
         (scheduleTrain sec t occ now).2) := rfl
    rw [hstep]
    have hEntrySelf : ∀ bid ∈ t.route,
        ∃ e, ((scheduleTrain sec t occ now).1.foldl
            (fun sch p => sch.setEntry t.id p.1 p.2) sched).getEntry t.id bid = some e ∧
          (e, optExitTime t (getBlock sec bid) e, t.id) ∈
            occGet (scheduleTrain sec t occ now).2 bid := by
      intro bid hb
      obtain ⟨e, hts, hmm⟩ := g5 bid hb
      refine ⟨e, ?_, hmm⟩
      rw [getEntry_foldSetEntry, hsub_none]
      simp only [Option.getD_none]
      rw [show (scheduleTrain sec t occ now).1 =
        (schedTrainGo sec t t.route (max t.dep_time_min now) [] occ).1 from rfl]
      rw [foldl_dictSet_lookup _ ([] : List (String × ℚ)) _ g7 (fun k _ => rfl)]
      rw [hts]
    obtain ⟨r1, r2, r3⟩ := ih (fun u => P u ∨ u = t)
      ((scheduleTrain sec t occ now).1.foldl
        (fun sch p => sch.setEntry t.id p.1 p.2) sched)
      (scheduleTrain sec t occ now).2
      (fun u hu => hrt u (List.mem_cons_of_mem _ hu)) hids.2
      (by
        rintro t' ht' u (hu | hu)
        · exact hforb t' (List.mem_cons_of_mem _ ht') u hu
        · subst hu
          intro he
          exact hids.1 (he ▸ List.mem_map_of_mem Train.id ht'))
      (fun bid => ⟨g1 bid, g2 bid, g3 bid⟩)
      (by
        rintro u (hu | hu) bid hb
        · obtain ⟨e, he1, he2⟩ := hbr u hu bid hb
          refine ⟨e, ?_, g4 bid _ he2⟩
          rw [getEntry_foldSetEntry_ne _ _ _ _ _ (hforb t hmem0 u hu)]
          exact he1
        · subst hu
          exact hEntrySelf bid hb)
      (by
        intro tid hs
        rcases foldSetEntry_keys _ _ _ _ hs with he | hs'
        · exact ⟨t, Or.inr rfl, he.symm⟩
        · obtain ⟨u, hu, hid⟩ := hkeys tid hs'
          exact ⟨u, Or.inl hu, hid⟩)
    have hpred : ∀ u, ((P u ∨ u = t) ∨ u ∈ rest) ↔ (P u ∨ u ∈ t :: rest) := by
      intro u
      constructor
      · rintro ((hu | hu) | hu)
        · exact Or.inl hu
        · exact Or.inr (by rw [hu]; exact List.mem_cons_self _ _)
        · exact Or.inr (List.mem_cons_of_mem _ hu)
      · rintro (hu | hu)
        · exact Or.inl (Or.inl hu)
        · rcases List.mem_cons.mp hu with he | hm
          · exact Or.inl (Or.inr he)
          · exact Or.inr hm
    refine ⟨OccInvP_mono sec (fun u hu => (hpred u).mp hu) _ r1,
      BridgeP_anti sec (fun u hu => (hpred u).mpr hu) _ _ r2,
      SchedKeysP_mono (fun u hu => (hpred u).mp hu) _ r3⟩

/-- The invariants hold of a full `optimize` call. -/
theorem optimizeFull_spec (sec : Section) (trains : List Train) (now : ℚ)
    (h : C1Hyps sec trains) :
    OccInvP sec (fun u => u ∈ trains) (optimizeFull sec trains now).2 ∧
    BridgeP sec (fun u => u ∈ trains) (optimizeFull sec trains now).1
      (optimizeFull sec trains now).2 := by
  obtain ⟨_, _, hids, htr⟩ := h
  have hperm := List.perm_insertionSort trainLE trains
  have hmem : ∀ u, u ∈ List.insertionSort trainLE trains ↔ u ∈ trains :=
    fun u => hperm.mem_iff
  have hidsort : ((List.insertionSort trainLE trains).map Train.id).Nodup :=
    ((hperm.map Train.id).nodup_iff).mpr hids
  obtain ⟨r1, r2, _⟩ := optFold_spec sec now (List.insertionSort trainLE trains)
    (fun _ => False) ⟨[]⟩ []
    (fun t ht => (htr t ((hmem t).mp ht)).2.1)
    hidsort
    (fun _ _ _ hu => hu.elim)
    (by
      intro bid
      refine ⟨?_, ?_, ?_⟩ <;> simp [occGet, dictGet?])
    (fun u hu => hu.elim)
    (by intro tid hs; simp [dictGet?] at hs)
  constructor
  · refine OccInvP_mono sec ?_ _ r1
    rintro u (hu | hu)
    · exact hu.elim
    · exact (hmem u).mp hu
  · refine BridgeP_anti sec ?_ _ _ r2
    intro u hu
    exact Or.inr ((hmem u).mpr hu)

/-- The inner route loop of the validator's occupancy rebuild: every produced
interval is either pre-existing or recomputed from a schedule entry of this
train on this route, and per-block tags stay distinct. -/
theorem buildOccInner_spec (sec : Section) (sched : ScheduleDecision) (t : Train) :
    ∀ (rs : List String) (occ : Occ),
      rs.Nodup →
      (∀ bid ∈ rs, ∀ iv ∈ occGet occ bid, iv.2.2 ≠ t.id) →
      (∀ bid, ((occGet occ bid).map (fun iv => iv.2.2)).Nodup) →
      ((occ.map Prod.fst).Nodup) →
      (∀ bid iv, iv ∈ occGet occ bid →
        iv ∈ occGet (buildOccInner sec sched t rs occ) bid) ∧
      (∀ bid iv, iv ∈ occGet (buildOccInner sec sched t rs occ) bid →
        iv ∈ occGet occ bid ∨ (bid ∈ rs ∧ ∃ e,
          sched.getEntry t.id bid = some e ∧
          iv = (e, valBuildExitTime t (getBlock sec bid) e, t.id))) ∧
      (∀ bid, ((occGet (buildOccInner sec sched t rs occ) bid).map
        (fun iv => iv.2.2)).Nodup) ∧
      (((buildOccInner sec sched t rs occ).map Prod.fst).Nodup) := by
  intro rs
  induction rs with
  | nil =>
    intro occ _ _ h3 h4
    exact ⟨fun _ _ h => h, fun _ _ h => Or.inl h, h3, h4⟩
  | cons bid0 rest ih =>
    intro occ hnd hfresh h3 h4
    obtain ⟨hb0, hndr⟩ := List.nodup_cons.mp hnd
    have hmem0 : bid0 ∈ bid0 :: rest := List.mem_cons_self _ _
    cases hE : sched.getEntry t.id bid0 with
    | none =>
      simp only [buildOccInner, hE]
      obtain ⟨b1, b2, b3, b4⟩ := ih occ hndr
        (fun bid hb iv hiv => hfresh bid (List.mem_cons_of_mem _ hb) iv hiv) h3 h4
      refine ⟨b1, ?_, b3, b4⟩
      intro bid iv hiv
      rcases b2 bid iv hiv with hm | ⟨hmr, he⟩
      · exact Or.inl hm
      · exact Or.inr ⟨List.mem_cons_of_mem _ hmr, he⟩
    | some e =>
      simp only [buildOccInner, hE]
      have key : ∀ bid, occGet (dictAppend occ bid0
          (e, valBuildExitTime t (getBlock sec bid0) e, t.id)) bid =
        if bid = bid0 then occGet occ bid0 ++
          [(e, valBuildExitTime t (getBlock sec bid0) e, t.id)]
        else occGet occ bid := fun bid => occGet_dictAppend occ bid0 bid _
      obtain ⟨b1, b2, b3, b4⟩ := ih
        (dictAppend occ bid0 (e, valBuildExitTime t (getBlock sec bid0) e, t.id))
        hndr
        (by
          intro bid hb iv hiv
          have hne : ¬ bid = bid0 := fun he => hb0 (he ▸ hb)
          rw [key bid, if_neg hne] at hiv
          exact hfresh bid (List.mem_cons_of_mem _ hb) iv hiv)
        (by
          intro bid
          rw [key bid]
          by_cases hb : bid = bid0
          · rw [if_pos hb]
            rw [List.map_append, List.nodup_append]
            refine ⟨h3 bid0, List.nodup_singleton _, ?_⟩
            intro a ha hc
            simp only [List.map_cons, List.map_nil, List.mem_singleton] at hc
            obtain ⟨iv, hiv, hiva⟩ := List.mem_map.mp ha
            exact hfresh bid0 hmem0 iv hiv (by rw [hiva, hc])
          · rw [if_neg hb]; exact h3 bid)
        (dictAppend_keys_nodup occ bid0 _ h4)
      refine ⟨?_, ?_, b3, b4⟩
      · intro bid iv hiv
        apply b1
        rw [key bid]
        by_cases hb : bid = bid0
        · subst hb
          rw [if_pos rfl]
          exact List.mem_append_left _ hiv
        · rw [if_neg hb]; exact hiv
      · intro bid iv hiv
        rcases b2 bid iv hiv with hm | ⟨hmr, he⟩
        · rw [key bid] at hm
          by_cases hb : bid = bid0
          · subst hb
            rw [if_pos rfl] at hm
            rcases List.mem_append.mp hm with hm' | hm'
            · exact Or.inl hm'
            · exact Or.inr ⟨hmem0, e, hE, List.mem_singleton.mp hm'⟩
          · rw [if_neg hb] at hm
            exact Or.inl hm
        · exact Or.inr ⟨List.mem_cons_of_mem _ hmr, he⟩

/-- The outer loop of the validator's occupancy rebuild. -/
theorem buildOcc_spec (sec : Section) (sched : ScheduleDecision) :
    ∀ (trains' : List Train) (occ : Occ),
      ((trains'.map Train.id).Nodup) →
      (∀ t ∈ trains', t.route.Nodup) →
      (∀ bid iv, iv ∈ occGet occ bid → ∀ t ∈ trains', iv.2.2 ≠ t.id) →
      (∀ bid, ((occGet occ bid).map (fun iv => iv.2.2)).Nodup) →
      ((occ.map Prod.fst).Nodup) →
      (∀ bid iv, iv ∈ occGet (trains'.foldl
          (fun occ train => buildOccInner sec sched train train.route occ) occ) bid →
        iv ∈ occGet occ bid ∨ ∃ t ∈ trains', bid ∈ t.route ∧ ∃ e,
          sched.getEntry t.id bid = some e ∧
          iv = (e, valBuildExitTime t (getBlock sec bid) e, t.id)) ∧
      (∀ bid, ((occGet (trains'.foldl
          (fun occ train => buildOccInner sec sched train train.route occ) occ)
            bid).map (fun iv => iv.2.2)).Nodup) ∧
      (((trains'.foldl (fun occ train => buildOccInner sec sched train train.route occ)
          occ).map Prod.fst).Nodup) := by
  intro trains'
  induction trains' with
  | nil =>
    intro occ _ _ _ h4 h5
    exact ⟨fun _ _ h => Or.inl h, h4, h5⟩
  | cons t rest ih =>
    intro occ hids hrt hfresh h4 h5
    have hmem0 : t ∈ t :: rest := List.mem_cons_self _ _
    simp only [List.map_cons, List.nodup_cons] at hids
    simp only [List.foldl_cons]
    obtain ⟨b1, b2, b3, b4⟩ := buildOccInner_spec sec sched t t.route occ
      (hrt t hmem0) (fun bid _ iv hiv => hfresh bid iv hiv t hmem0) h4 h5
    obtain ⟨c1, c2, c3⟩ := ih (buildOccInner sec sched t t.route occ)
      hids.2 (fun u hu => hrt u (List.mem_cons_of_mem _ hu))
      (by
        intro bid iv hiv u hu
        rcases b2 bid iv hiv with hm | ⟨_, e, _, hivEq⟩
        · exact hfresh bid iv hm u (List.mem_cons_of_mem _ hu)
        · rw [hivEq]
          show t.id ≠ u.id
          intro he
          exact hids.1 (he ▸ List.mem_map_of_mem Train.id hu))
      b3 b4
    refine ⟨?_, c2, c3⟩
    intro bid iv hiv
    rcases c1 bid iv hiv with hm | ⟨u, hu, hr, he⟩
    · rcases b2 bid iv hm with hm' | ⟨hmr, e, hE, hEq⟩
      · exact Or.inl hm'
      · exact Or.inr ⟨t, hmem0, hmr, e, hE, hEq⟩
    · exact Or.inr ⟨u, List.mem_cons_of_mem _ hu, hr, he⟩

/-- The inner route loop of the head-on timeline build (direction-filtered). -/
theorem buildHOInner_spec (sec : Section) (sched : ScheduleDecision) (t : Train) :
    ∀ (rs : List String) (tl : HOcc),
      rs.Nodup →
      (∀ bid ∈ rs, ∀ jv ∈ occGet tl bid, jv.2.2.1 ≠ t.id) →
      (∀ bid, ((occGet tl bid).map (fun jv => jv.2.2.1)).Nodup) →
      ((tl.map Prod.fst).Nodup) →
      (∀ bid jv, jv ∈ occGet tl bid →
        jv ∈ occGet (buildHOInner sec sched t rs tl) bid) ∧
      (∀ bid jv, jv ∈ occGet (buildHOInner sec sched t rs tl) bid →
        jv ∈ occGet tl bid ∨ (bid ∈ rs ∧ ∃ e,
          sched.getEntry t.id bid = some e ∧
          jv = (e, valBuildExitTime t (getBlock sec bid) e, t.id, t.direction))) ∧
      (∀ bid, ((occGet (buildHOInner sec sched t rs tl) bid).map
        (fun jv => jv.2.2.1)).Nodup) ∧
      (((buildHOInner sec sched t rs tl).map Prod.fst).Nodup) := by
  intro rs
  induction rs with
  | nil =>
    intro tl _ _ h3 h4
    exact ⟨fun _ _ h => h, fun _ _ h => Or.inl h, h3, h4⟩
  | cons bid0 rest ih =>
    intro tl hnd hfresh h3 h4
    obtain ⟨hb0, hndr⟩ := List.nodup_cons.mp hnd
    have hmem0 : bid0 ∈ bid0 :: rest := List.mem_cons_self _ _
    cases hE : sched.getEntry t.id bid0 with
    | none =>
      simp only [buildHOInner, hE]
      obtain ⟨b1, b2, b3, b4⟩ := ih tl hndr
        (fun bid hb jv hjv => hfresh bid (List.mem_cons_of_mem _ hb) jv hjv) h3 h4
      refine ⟨b1, ?_, b3, b4⟩
      intro bid jv hjv
      rcases b2 bid jv hjv with hm | ⟨hmr, he⟩
      · exact Or.inl hm
      · exact Or.inr ⟨List.mem_cons_of_mem _ hmr, he⟩
    | some e =>
      by_cases hdir : (getBlock sec bid0).direction = "bi" ∨
          (getBlock sec bid0).direction = t.direction
      · simp only [buildHOInner, hE, if_pos hdir]
        have key : ∀ bid, occGet (dictAppend tl bid0
            (e, valBuildExitTime t (getBlock sec bid0) e, t.id, t.direction)) bid =
          if bid = bid0 then occGet tl bid0 ++
            [(e, valBuildExitTime t (getBlock sec bid0) e, t.id, t.direction)]
          else occGet tl bid := fun bid => occGet_dictAppend tl bid0 bid _
        obtain ⟨b1, b2, b3, b4⟩ := ih
          (dictAppend tl bid0 (e, valBuildExitTime t (getBlock sec bid0) e, t.id, t.direction))
          hndr
          (by
            intro bid hb jv hjv
            have hne : ¬ bid = bid0 := fun he => hb0 (he ▸ hb)
            rw [key bid, if_neg hne] at hjv
            exact hfresh bid (List.mem_cons_of_mem _ hb) jv hjv)
          (by
            intro bid
            rw [key bid]
            by_cases hb : bid = bid0
            · rw [if_pos hb]
              rw [List.map_append, List.nodup_append]
              refine ⟨h3 bid0, List.nodup_singleton _, ?_⟩
              intro a ha hc
              simp only [List.map_cons, List.map_nil, List.mem_singleton] at hc
              obtain ⟨jv, hjv, hjva⟩ := List.mem_map.mp ha
              exact hfresh bid0 hmem0 jv hjv (by rw [hjva, hc])
            · rw [if_neg hb]; exact h3 bid)
          (dictAppend_keys_nodup tl bid0 _ h4)
        refine ⟨?_, ?_, b3, b4⟩
        · intro bid jv hjv
          apply b1
          rw [key bid]
          by_cases hb : bid = bid0
          · subst hb
            rw [if_pos rfl]
            exact List.mem_append_left _ hjv
          · rw [if_neg hb]; exact hjv
        · intro bid jv hjv
          rcases b2 bid jv hjv with hm | ⟨hmr, he⟩
          · rw [key bid] at hm
            by_cases hb : bid = bid0
            · subst hb
              rw [if_pos rfl] at hm
              rcases List.mem_append.mp hm with hm' | hm'
              · exact Or.inl hm'
              · exact Or.inr ⟨hmem0, e, hE, List.mem_singleton.mp hm'⟩
            · rw [if_neg hb] at hm
              exact Or.inl hm
          · exact Or.inr ⟨List.mem_cons_of_mem _ hmr, he⟩
      · simp only [buildHOInner, hE, if_neg hdir]
        obtain ⟨b1, b2, b3, b4⟩ := ih tl hndr
          (fun bid hb jv hjv => hfresh bid (List.mem_cons_of_mem _ hb) jv hjv) h3 h4
        refine ⟨b1, ?_, b3, b4⟩
        intro bid jv hjv
        rcases b2 bid jv hjv with hm | ⟨hmr, he⟩
        · exact Or.inl hm
        · exact Or.inr ⟨List.mem_cons_of_mem _ hmr, he⟩

/-- The outer loop of the head-on timeline build. -/
theorem buildHO_spec (sec : Section) (sched : ScheduleDecision) :
    ∀ (trains' : List Train) (tl : HOcc),
      ((trains'.map Train.id).Nodup) →
      (∀ t ∈ trains', t.route.Nodup) →
      (∀ bid jv, jv ∈ occGet tl bid → ∀ t ∈ trains', jv.2.2.1 ≠ t.id) →
      (∀ bid, ((occGet tl bid).map (fun jv => jv.2.2.1)).Nodup) →
      ((tl.map Prod.fst).Nodup) →
      (∀ bid jv, jv ∈ occGet (trains'.foldl
          (fun tl train => buildHOInner sec sched train train.route tl) tl) bid →
        jv ∈ occGet tl bid ∨ ∃ t ∈ trains', bid ∈ t.route ∧ ∃ e,
          sched.getEntry t.id bid = some e ∧
          jv = (e, valBuildExitTime t (getBlock sec bid) e, t.id, t.direction)) ∧
      (∀ bid, ((occGet (trains'.foldl
          (fun tl train => buildHOInner sec sched train train.route tl) tl)
            bid).map (fun jv => jv.2.2.1)).Nodup) ∧
      (((trains'.foldl (fun tl train => buildHOInner sec sched train train.route tl)
          tl).map Prod.fst).Nodup) := by
  intro trains'
  induction trains' with
  | nil =>
    intro tl _ _ _ h4 h5
    exact ⟨fun _ _ h => Or.inl h, h4, h5⟩
  | cons t rest ih =>
    intro tl hids hrt hfresh h4 h5
    have hmem0 : t ∈ t :: rest := List.mem_cons_self _ _
    simp only [List.map_cons, List.nodup_cons] at hids
    simp only [List.foldl_cons]
    obtain ⟨b1, b2, b3, b4⟩ := buildHOInner_spec sec sched t t.route tl
      (hrt t hmem0) (fun bid _ jv hjv => hfresh bid jv hjv t hmem0) h4 h5
    obtain ⟨c1, c2, c3⟩ := ih (buildHOInner sec sched t t.route tl)
      hids.2 (fun u hu => hrt u (List.mem_cons_of_mem _ hu))
      (by
        intro bid jv hjv u hu
        rcases b2 bid jv hjv with hm | ⟨_, e, _, hjvEq⟩
        · exact hfresh bid jv hm u (List.mem_cons_of_mem _ hu)
        · rw [hjvEq]
          show t.id ≠ u.id
          intro he
          exact hids.1 (he ▸ List.mem_map_of_mem Train.id hu))
      b3 b4
    refine ⟨?_, c2, c3⟩
    intro bid jv hjv
    rcases c1 bid jv hjv with hm | ⟨u, hu, hr, he⟩
    · rcases b2 bid jv hm with hm' | ⟨hmr, e, hE, hEq⟩
      · exact Or.inl hm'
      · exact Or.inr ⟨t, hmem0, hmr, e, hE, hEq⟩
    · exact Or.inr ⟨u, List.mem_cons_of_mem _ hu, hr, he⟩

/-! ### Clean-output lemmas -/

theorem pairCheck_eq_nil_of_sep (h : ℚ) (bid : String) (x y : ℚ × ℚ × String)
    (hh : 0 ≤ h) (hxy : x.1 ≤ y.1) (hsep : Sep2 h x y) (hpos : y.1 < y.2.1) :
    pairCheck h bid x y = [] := by
  rcases hsep with hs | hs
  · unfold Sep at hs
    rw [pairCheck, if_neg (by rintro ⟨h1, _⟩; linarith),
      if_neg (by rintro ⟨h1, _⟩; linarith)]
    rfl
  · unfold Sep at hs
    exact absurd hxy (by push_neg; linarith)

theorem adjChecks_eq_nil (h : ℚ) (bid : String) (hh : 0 ≤ h) :
    ∀ L : List (ℚ × ℚ × String), L.Sorted entryLE → L.Pairwise (Sep2 h) →
      (∀ iv ∈ L, iv.1 < iv.2.1) → adjChecks h bid L = [] := by
  intro L
  induction L with
  | nil => intro _ _ _; rfl
  | cons x rest ih =>
    cases rest with
    | nil => intro _ _ _; rfl
    | cons y rest' =>
      intro hsort hpw hpos
      obtain ⟨hx, hsort'⟩ := List.sorted_cons.mp hsort
      obtain ⟨hx2, hpw'⟩ := List.pairwise_cons.mp hpw
      rw [adjChecks,
        pairCheck_eq_nil_of_sep h bid x y hh (hx y (List.mem_cons_self _ _))
          (hx2 y (List.mem_cons_self _ _)) (hpos y (List.mem_cons_of_mem _ (List.mem_cons_self _ _))),
        List.nil_append]
      exact ih hsort' hpw' fun iv hiv => hpos iv (List.mem_cons_of_mem _ hiv)

theorem headOnPair_eq_nil (sec : Section) (bid : String) (h : ℚ) (hh : 0 ≤ h)
    (x y : ℚ × ℚ × String × String) (hsep : Sep2 h x y) :
    headOnPair sec bid x y = [] := by
  rcases hsep with hs | hs <;> unfold Sep at hs
  · rw [headOnPair, if_neg]
    rintro ⟨_, hno⟩
    exact hno (Or.inl (by linarith))
  · rw [headOnPair, if_neg]
    rintro ⟨_, hno⟩
    exact hno (Or.inr (by linarith))

theorem headOnWith_eq_nil (sec : Section) (bid : String) (h : ℚ) (hh : 0 ≤ h)
    (x : ℚ × ℚ × String × String) :
    ∀ rest : List (ℚ × ℚ × String × String), (∀ y ∈ rest, Sep2 h x y) →
      headOnWith sec bid x rest = [] := by
  intro rest
  induction rest with
  | nil => intro _; rfl
  | cons y rest' ih =>
    intro hall
    rw [headOnWith, headOnPair_eq_nil sec bid h hh x y (hall y (List.mem_cons_self _ _)),
      List.nil_append]
    exact ih fun z hz => hall z (List.mem_cons_of_mem _ hz)

theorem headOnScan_eq_nil (sec : Section) (bid : String) (h : ℚ) (hh : 0 ≤ h) :
    ∀ L : List (ℚ × ℚ × String × String), L.Pairwise (Sep2 h) →
      headOnScan sec bid L = [] := by
  intro L
  induction L with
  | nil => intro _; rfl
  | cons x rest ih =>
    intro hpw
    obtain ⟨hx, hpw'⟩ := List.pairwise_cons.mp hpw
    rw [headOnScan, headOnWith_eq_nil sec bid h hh x rest hx, List.nil_append]
    exact ih hpw'

/-- C1 (amended): under the claim's hypotheses *plus nonnegative dwell times*,
validating the scheduler's own output is clean:
`validate_schedule(optimize(trains, now), trains)` returns `(True, [])`. -/
theorem C1_optimizer_schedule_validates (sec : Section) (trains : List Train)
    (now : ℚ) (h : C1HypsAmended sec trains) :
    validateSchedule sec (optimize sec trains now) trains = (true, []) := by
  obtain ⟨hyps, hdw⟩ := h
  obtain ⟨hsec, hh, hids, htr⟩ := hyps
  obtain ⟨hocc, hbr⟩ := optimizeFull_spec sec trains now ⟨hsec, hh, hids, htr⟩
  have hopt : optimize sec trains now = (optimizeFull sec trains now).1 := rfl
  rw [← hopt] at hbr
  obtain ⟨d1, d2, d3⟩ := buildOcc_spec sec (optimize sec trains now) trains []
    hids (fun t ht => (htr t ht).2.1)
    (by intro bid iv hiv; simp [occGet, dictGet?] at hiv)
    (by intro bid; simp [occGet, dictGet?])
    (by simp)
  have hblocks : ∀ p ∈ buildOccupancyTimeline sec (optimize sec trains now) trains,
      adjChecks sec.headway_min p.1 (List.insertionSort entryLE p.2) = [] := by
    intro p hp
    have hL : occGet (buildOccupancyTimeline sec (optimize sec trains now) trains) p.1
        = p.2 := by
      unfold occGet
      rw [show buildOccupancyTimeline sec (optimize sec trains now) trains =
        trains.foldl (fun occ train =>
          buildOccInner sec (optimize sec trains now) train train.route occ) [] from rfl]
      rw [occGet_of_mem _ p d3 hp]
      rfl
    have hmemocc : ∀ iv ∈ p.2,
        iv ∈ occGet (optimizeFull sec trains now).2 p.1 ∧ iv.1 < iv.2.1 := by
      intro iv hiv
      have hiv' : iv ∈ occGet
          (buildOccupancyTimeline sec (optimize sec trains now) trains) p.1 := by
        rw [hL]; exact hiv
      rcases d1 p.1 iv hiv' with h0 | ⟨t, ht, hroute, e, hE, hEq⟩
      · simp [occGet, dictGet?] at h0
      · obtain ⟨e', hE', hmem⟩ := hbr t ht p.1 hroute
        have hee : e = e' := by
          rw [hE] at hE'
          exact Option.some.inj hE'
        subst hee
        constructor
        · rw [hEq]
          exact hmem
        · rw [hEq]
          exact optExitTime_gt sec t p.1 e hsec (htr t ht).1 (hdw t ht)
            ((htr t ht).2.2 p.1 hroute)
    have hnd : (p.2.map (fun iv => iv.2.2)).Nodup := by
      rw [← hL]; exact d2 p.1
    have hpw2 : p.2.Pairwise (Sep2 sec.headway_min) := by
      have hptid := List.pairwise_map.mp hnd
      refine List.Pairwise.imp_of_mem ?_ hptid
      intro a b ha hb hab
      exact pairwise_sep2_of_mem sec.headway_min _ ((hocc p.1).1)
        (hmemocc a ha).1 (hmemocc b hb).1 (fun he => hab (by rw [he]))
    have hperm := List.perm_insertionSort entryLE p.2
    refine adjChecks_eq_nil sec.headway_min p.1 hh _
      (List.sorted_insertionSort entryLE p.2)
      ((List.Perm.pairwise_iff (fun hs => sep2_symm sec.headway_min hs) hperm).mpr
        hpw2) ?_
    intro iv hiv
    exact (hmemocc iv (hperm.mem_iff.mp hiv)).2
  obtain ⟨e1, e2, e3⟩ := buildHO_spec sec (optimize sec trains now) trains []
    hids (fun t ht => (htr t ht).2.1)
    (by intro bid jv hjv; simp [occGet, dictGet?] at hjv)
    (by intro bid; simp [occGet, dictGet?])
    (by simp)
  have hhoblocks : ∀ p ∈ buildHeadOnTimeline sec (optimize sec trains now) trains,
      headOnScan sec p.1 p.2 = [] := by
    intro p hp
    have hL : occGet (buildHeadOnTimeline sec (optimize sec trains now) trains) p.1
        = p.2 := by
      unfold occGet
      rw [show buildHeadOnTimeline sec (optimize sec trains now) trains =
        trains.foldl (fun tl train =>
          buildHOInner sec (optimize sec trains now) train train.route tl) [] from rfl]
      rw [occGet_of_mem _ p e3 hp]
      rfl
    have hmemocc : ∀ jv ∈ p.2,
        (jv.1, jv.2.1, jv.2.2.1) ∈ occGet (optimizeFull sec trains now).2 p.1 := by
      intro jv hjv
      have hjv' : jv ∈ occGet
          (buildHeadOnTimeline sec (optimize sec trains now) trains) p.1 := by
        rw [hL]; exact hjv
      rcases e1 p.1 jv hjv' with h0 | ⟨t, ht, hroute, e, hE, hEq⟩
      · simp [occGet, dictGet?] at h0
      · obtain ⟨e', hE', hmem⟩ := hbr t ht p.1 hroute
        have hee : e = e' := by
          rw [hE] at hE'
          exact Option.some.inj hE'
        subst hee
        rw [hEq]
        exact hmem
    have hnd : (p.2.map (fun jv => jv.2.2.1)).Nodup := by
      rw [← hL]; exact e2 p.1
    have hpw2 : p.2.Pairwise (Sep2 sec.headway_min) := by
      have hptid := List.pairwise_map.mp hnd
      refine List.Pairwise.imp_of_mem ?_ hptid
      intro a b ha hb hab
      have hsep := pairwise_sep2_of_mem sec.headway_min _ ((hocc p.1).1)
        (hmemocc a ha) (hmemocc b hb)
        (fun he => hab (congrArg (fun q => q.2.2) he))
      rcases hsep with hs | hs
      · exact Or.inl hs
      · exact Or.inr hs
    exact headOnScan_eq_nil sec p.1 sec.headway_min hh p.2 hpw2
  have hsame := foldl_append_eq_nil
    (fun p => adjChecks sec.headway_min p.1 (List.insertionSort entryLE p.2))
    (buildOccupancyTimeline sec (optimize sec trains now) trains) [] hblocks
  have hho := foldl_append_eq_nil (fun p => headOnScan sec p.1 p.2)
    (buildHeadOnTimeline sec (optimize sec trains now) trains) [] hhoblocks
  show ((!anyCritical
      ((buildOccupancyTimeline sec (optimize sec trains now) trains).foldl
        (fun acc p =>
          acc ++ adjChecks sec.headway_min p.1 (List.insertionSort entryLE p.2)) [] ++
       checkHeadOn sec (optimize sec trains now) trains)),
      ((buildOccupancyTimeline sec (optimize sec trains now) trains).foldl
        (fun acc p =>
          acc ++ adjChecks sec.headway_min p.1 (List.insertionSort entryLE p.2)) [] ++
       checkHeadOn sec (optimize sec trains now) trains)) = (true, [])
  rw [hsame]
  have hcheck : checkHeadOn sec (optimize sec trains now) trains = [] := by
    show (buildHeadOnTimeline sec (optimize sec trains now) trains).foldl
      (fun acc p => acc ++ headOnScan sec p.1 p.2) [] = []
    exact hho
  rw [hcheck]
  rfl

/-- Witness for C1 (amended): the spec's worked-example scenario satisfies the
amended hypotheses, and validating its optimized schedule is clean. -/
theorem C1_optimizer_schedule_validates_witness :
    validateSchedule sec8 (optimize sec8 [t8a, t8b] 0) [t8a, t8b] = (true, []) := by
  refine C1_optimizer_schedule_validates sec8 [t8a, t8b] 0 ⟨⟨?_, ?_, ?_, ?_⟩, ?_⟩
  · intro b hb
    simp only [sec8, List.mem_singleton] at hb
    rw [hb]
    norm_num
  · norm_num [sec8]
  · simp [t8a, t8b]
  · intro t ht
    rcases List.mem_cons.mp ht with he | ht'
    · subst he
      refine ⟨by norm_num [t8a], by simp [t8a], ?_⟩
      intro bid hbid
      simp only [t8a, List.mem_singleton] at hbid
      exact ⟨⟨"B1", 10, 100, "up", none, 1⟩, by simp [sec8], hbid.symm⟩
    · rcases List.mem_cons.mp ht' with he | h0
      · subst he
        refine ⟨by norm_num [t8b], by simp [t8b], ?_⟩
        intro bid hbid
        simp only [t8b, List.mem_singleton] at hbid
        exact ⟨⟨"B1", 10, 100, "up", none, 1⟩, by simp [sec8], hbid.symm⟩
      · cases h0
  · intro t ht
    rcases List.mem_cons.mp ht with he | ht'
    · subst he; norm_num [t8a]
    · rcases List.mem_cons.mp ht' with he | h0
      · subst he; norm_num [t8b]
      · cases h0

/-- C1 counterexample: the claim's stated hypotheses hold (they do not
constrain dwell times), yet with `T1`'s dwell of `-61` minutes the committed
interval `[50, -10)` ends before it begins, `T2` is committed `[0, 100)`
without any bump, and the validator reports a critical collision — the output
is not `(True, [])`. -/
theorem C1_counterexample :
    C1Hyps c1sec [c1t1, c1t2] ∧
    validateSchedule c1sec (optimize c1sec [c1t1, c1t2] 0) [c1t1, c1t2] ≠
      (true, []) := by
  constructor
  · refine ⟨?_, by norm_num [c1sec], by simp [c1t1, c1t2], ?_⟩
    · intro b hb
      simp only [c1sec, List.mem_singleton] at hb
      rw [hb]
      norm_num
    · intro t ht
      rcases List.mem_cons.mp ht with he | ht'
      · subst he
        refine ⟨by norm_num [c1t1], by simp [c1t1], ?_⟩
        intro bid hbid
        simp only [c1t1, List.mem_singleton] at hbid
        exact ⟨⟨"b1", 10, 600, "bi", some "ST", 1⟩, by simp [c1sec], hbid.symm⟩
      · rcases List.mem_cons.mp ht' with he | h0
        · subst he
          refine ⟨by norm_num [c1t2], by simp [c1t2], ?_⟩
          intro bid hbid
          simp only [c1t2, List.mem_singleton] at hbid
          exact ⟨⟨"b1", 10, 600, "bi", some "ST", 1⟩, by simp [c1sec], hbid.symm⟩
        · cases h0
  · intro hEq
    have h1 : (validateSchedule c1sec (optimize c1sec [c1t1, c1t2] 0)
        [c1t1, c1t2]).1 = false := by
      simp [validateSchedule, buildOccupancyTimeline, buildOccInner, checkHeadOn,
        buildHeadOnTimeline, buildHOInner, optimize, optimizeFull, optStep,
        scheduleTrain, schedTrainGo, c1sec, c1t1, c1t2, List.insertionSort,
        List.orderedInsert, trainLE, bumpEntry, occGet, dictGet?, dictSet,
        dictAppend, setEntryGo, getBlock, blockMap, optExitTime, valBuildExitTime,
        stationTruthy, ScheduleDecision.setEntry, ScheduleDecision.getEntry,
        entryLE, adjChecks, pairCheck, headOnScan, headOnWith, headOnPair,
        anyCritical]
      norm_num [List.insertionSort, List.orderedInsert, entryLE, adjChecks,
        pairCheck, anyCritical]
    rw [hEq] at h1
    simp at h1

/-! ### C6: completion delay -/

theorem logEvent_states (s : SimState) (ts : ℚ) (et : String) (tid bid : Option String)
    (sev : String) : (logEvent s ts et tid bid sev).states = s.states := rfl

theorem setTrainState_states (s : SimState) (tid : String) (st : SimTrainState) :
    (setTrainState s tid st).states = dictSet s.states tid st := rfl

/-- C6 (amended): whenever the per-train step of `EnhancedSimulator.simulate`
marks a train finished, the recorded delay is
`max(0, clock − (ideal route time + the train's *current* departure offset))`
— the offset as already shifted by any applied disruption, not the original
one; in particular the recorded delay is never negative. -/
theorem C6_completion_delay (sec : Section) (s : SimState) (tid : String)
    (st st' : SimTrainState)
    (h1 : dictGet? s.states tid = some st) (h2 : st.finished = false)
    (h3 : dictGet? (stepTrain sec s tid).states tid = some st')
    (h4 : st'.finished = true) :
    st'.delay_min = max 0 (s.time -
      (routeIdeal sec (getTrain s tid) + (getTrain s tid).dep_time_min)) ∧
    0 ≤ st'.delay_min := by
  have hnf : ¬ (st.finished = true) := by rw [h2]; exact Bool.false_ne_true
  simp only [stepTrain, h1] at h3
  rw [if_neg hnf] at h3
  repeat' split at h3
  all_goals
    first
    | (simp only [logEvent_states, setTrainState_states,
         apply_ite (fun x : SimState => x.states), ite_self] at h3
       rw [dictGet?_dictSet, if_pos rfl] at h3
       cases h3
       first
       | exact ⟨rfl, le_max_left _ _⟩
       | exact absurd h4 hnf)
    | (rw [h1] at h3
       cases h3
       exact absurd h4 hnf)
    | (simp only [logEvent_states] at h3
       rw [h1] at h3
       cases h3
       exact absurd h4 hnf)

/-- C6 witness: a concrete completing step — train `T` with current departure
offset 101 finishing block `b1` at clock 3 records delay
`max 0 (3 - (1 + 101)) = 0`. -/
theorem C6_completion_delay_witness :
    (⟨1, 2, true, 0, none⟩ : SimTrainState).delay_min = max 0 (c6wState.time -
      (routeIdeal c6sec (getTrain c6wState "T") + (getTrain c6wState "T").dep_time_min)) ∧
    0 ≤ (⟨1, 2, true, 0, none⟩ : SimTrainState).delay_min :=
  C6_completion_delay c6sec c6wState "T" ⟨0, 2, false, 0, some "b1"⟩ ⟨1, 2, true, 0, none⟩
    (by simp [c6wState, dictGet?]) rfl
    (by
      simp [stepTrain, c6wState, c6wTrain, c6sec, getTrain, findTrain, dictGet?,
        dictSet, getBlock, blockMap, stationTruthy, routeIdeal, setTrainState,
        logEvent]
      norm_num
      simp [dictGet?])
    rfl

set_option maxHeartbeats 2000000 in
/-- The complete `enhancedSimulate` run of the C6 counterexample scenario,
tick by tick: warning hold at 1 (the clearance query sees the querying train
itself), departure at 2, disruption and completion at 3. -/
theorem c6RunEq :
    enhancedSimulate c6sec [c6train] 4 1 [c6disr] 8 =
      ⟨[⟨"T", 1, 60, 0, ["b1"], "up", 101, "X"⟩],
        [("T", ⟨1, 2, true, 0, none⟩)],
        ⟨[("T", [("b1", 101)])]⟩,
        [("b1", none)], [("b1", 1)],
        [⟨0, "SYSTEM", none, none, "INFO"⟩, ⟨0, "SYSTEM", none, none, "INFO"⟩,
         ⟨1, "WARNING", some "T", some "b1", "WARNING"⟩,
         ⟨2, "DEPARTURE", some "T", some "b1", "INFO"⟩,
         ⟨3, "DISRUPTION", some "T", none, "WARNING"⟩,
         ⟨3, "COMPLETION", some "T", none, "INFO"⟩,
         ⟨5, "SYSTEM", none, none, "INFO"⟩],
        ⟨1, 1, 0, 0, 0⟩, 5⟩ := by
  have h0 : initSimState c6sec [c6train] =
      ⟨[c6train], [("T", ⟨0, 1, false, 0, none⟩)], ⟨[("T", [("b1", 1)])]⟩,
        [("b1", none)], [("b1", 0)],
        [⟨0, "SYSTEM", none, none, "INFO"⟩, ⟨0, "SYSTEM", none, none, "INFO"⟩],
        ⟨1, 0, 0, 0, 0⟩, 0⟩ := by
    simp [initSimState, initEvents, optimize, optimizeFull, optStep, scheduleTrain,
      schedTrainGo, bumpEntry, occGet, dictGet?, dictSet, dictAppend, setEntryGo,
      getBlock, blockMap, optExitTime, stationTruthy, ScheduleDecision.setEntry,
      validateSchedule, buildOccupancyTimeline, buildOccInner, valBuildExitTime,
      adjChecks, pairCheck, checkHeadOn, buildHeadOnTimeline, buildHOInner,
      headOnScan, headOnWith, headOnPair, anyCritical, c6sec, c6train,
      List.insertionSort, List.orderedInsert, trainLE, entryLE]
  have h1 : simTick c6sec 1 [c6disr] (⟨[c6train], [("T", ⟨0, 1, false, 0, none⟩)],
        ⟨[("T", [("b1", 1)])]⟩, [("b1", none)], [("b1", 0)],
        [⟨0, "SYSTEM", none, none, "INFO"⟩, ⟨0, "SYSTEM", none, none, "INFO"⟩],
        ⟨1, 0, 0, 0, 0⟩, 0⟩ : SimState) =
      ⟨[c6train], [("T", ⟨0, 1, false, 0, none⟩)], ⟨[("T", [("b1", 1)])]⟩,
        [("b1", none)], [("b1", 0)],
        [⟨0, "SYSTEM", none, none, "INFO"⟩, ⟨0, "SYSTEM", none, none, "INFO"⟩],
        ⟨1, 0, 0, 0, 0⟩, 1⟩ := by
    norm_num [simTick, disruptPhase, disruptStep, activeCount, movePhase, busyPhase,
      stepTrain, getTrain, findTrain, dictGet?, c6disr, c6train, c6sec]
  have h2 : simTick c6sec 1 [c6disr] (⟨[c6train], [("T", ⟨0, 1, false, 0, none⟩)],
        ⟨[("T", [("b1", 1)])]⟩, [("b1", none)], [("b1", 0)],
        [⟨0, "SYSTEM", none, none, "INFO"⟩, ⟨0, "SYSTEM", none, none, "INFO"⟩],
        ⟨1, 0, 0, 0, 0⟩, 1⟩ : SimState) =
      ⟨[c6train], [("T", ⟨0, 1, false, 0, none⟩)], ⟨[("T", [("b1", 1)])]⟩,
        [("b1", none)], [("b1", 0)],
        [⟨0, "SYSTEM", none, none, "INFO"⟩, ⟨0, "SYSTEM", none, none, "INFO"⟩,
         ⟨1, "WARNING", some "T", some "b1", "WARNING"⟩],
        ⟨1, 0, 0, 0, 0⟩, 2⟩ := by
    norm_num [simTick, disruptPhase, disruptStep, activeCount, movePhase, busyPhase,
      stepTrain, getTrain, findTrain, dictGet?, dictSet, logEvent, setTrainState,
      ScheduleDecision.getEntry, verifyBlockClearance, valClearExitTime, getBlock,
      blockMap, stationTruthy, c6disr, c6train, c6sec]
  have h3 : simTick c6sec 1 [c6disr] (⟨[c6train], [("T", ⟨0, 1, false, 0, none⟩)],
        ⟨[("T", [("b1", 1)])]⟩, [("b1", none)], [("b1", 0)],
        [⟨0, "SYSTEM", none, none, "INFO"⟩, ⟨0, "SYSTEM", none, none, "INFO"⟩,
         ⟨1, "WARNING", some "T", some "b1", "WARNING"⟩],
        ⟨1, 0, 0, 0, 0⟩, 2⟩ : SimState) =
      ⟨[c6train], [("T", ⟨0, 2, false, 0, some "b1"⟩)], ⟨[("T", [("b1", 1)])]⟩,
        [("b1", some "T")], [("b1", 1)],
        [⟨0, "SYSTEM", none, none, "INFO"⟩, ⟨0, "SYSTEM", none, none, "INFO"⟩,
         ⟨1, "WARNING", some "T", some "b1", "WARNING"⟩,
         ⟨2, "DEPARTURE", some "T", some "b1", "INFO"⟩],
        ⟨1, 0, 0, 0, 0⟩, 3⟩ := by
    norm_num [simTick, disruptPhase, disruptStep, activeCount, movePhase, busyPhase,
      stepTrain, getTrain, findTrain, dictGet?, dictSet, logEvent, setTrainState,
      ScheduleDecision.getEntry, verifyBlockClearance, valClearExitTime, getBlock,
      blockMap, stationTruthy, c6disr, c6train, c6sec]
  have h4 : simTick c6sec 1 [c6disr] (⟨[c6train], [("T", ⟨0, 2, false, 0, some "b1"⟩)],
        ⟨[("T", [("b1", 1)])]⟩, [("b1", some "T")], [("b1", 1)],
        [⟨0, "SYSTEM", none, none, "INFO"⟩, ⟨0, "SYSTEM", none, none, "INFO"⟩,
         ⟨1, "WARNING", some "T", some "b1", "WARNING"⟩,
         ⟨2, "DEPARTURE", some "T", some "b1", "INFO"⟩],
        ⟨1, 0, 0, 0, 0⟩, 3⟩ : SimState) =
      ⟨[⟨"T", 1, 60, 0, ["b1"], "up", 101, "X"⟩],
        [("T", ⟨1, 2, true, 0, none⟩)], ⟨[("T", [("b1", 101)])]⟩,
        [("b1", none)], [("b1", 1)],
        [⟨0, "SYSTEM", none, none, "INFO"⟩, ⟨0, "SYSTEM", none, none, "INFO"⟩,
         ⟨1, "WARNING", some "T", some "b1", "WARNING"⟩,
         ⟨2, "DEPARTURE", some "T", some "b1", "INFO"⟩,
         ⟨3, "DISRUPTION", some "T", none, "WARNING"⟩,
         ⟨3, "COMPLETION", some "T", none, "INFO"⟩],
        ⟨1, 1, 1, 0, 0⟩, 4⟩ := by
    norm_num [simTick, disruptPhase, disruptStep, applyDisruption, hasKey, activeTrains,
      activeCount, movePhase, busyPhase, stepTrain, getTrain, findTrain, dictGet?,
      dictSet, logEvent, setTrainState, ScheduleDecision.getEntry,
      ScheduleDecision.setEntry, verifyBlockClearance, valClearExitTime, getBlock,
      blockMap, stationTruthy, routeIdeal, isCrossingPoint, approachCount,
      optimize, optimizeFull, optStep, scheduleTrain, schedTrainGo, bumpEntry,
      occGet, dictAppend, setEntryGo, optExitTime, validateSchedule,
      buildOccupancyTimeline, buildOccInner, valBuildExitTime, adjChecks,
      pairCheck, checkHeadOn, buildHeadOnTimeline, buildHOInner, headOnScan,
      headOnWith, headOnPair, anyCritical, c6disr, c6train, c6sec,
      List.insertionSort, List.orderedInsert, trainLE, entryLE]
    simp
    norm_num
  have h5 : simTick c6sec 1 [c6disr] (⟨[⟨"T", 1, 60, 0, ["b1"], "up", 101, "X"⟩],
        [("T", ⟨1, 2, true, 0, none⟩)], ⟨[("T", [("b1", 101)])]⟩,
        [("b1", none)], [("b1", 1)],
        [⟨0, "SYSTEM", none, none, "INFO"⟩, ⟨0, "SYSTEM", none, none, "INFO"⟩,
         ⟨1, "WARNING", some "T", some "b1", "WARNING"⟩,
         ⟨2, "DEPARTURE", some "T", some "b1", "INFO"⟩,
         ⟨3, "DISRUPTION", some "T", none, "WARNING"⟩,
         ⟨3, "COMPLETION", some "T", none, "INFO"⟩],
        ⟨1, 1, 1, 0, 0⟩, 4⟩ : SimState) =
      ⟨[⟨"T", 1, 60, 0, ["b1"], "up", 101, "X"⟩],
        [("T", ⟨1, 2, true, 0, none⟩)], ⟨[("T", [("b1", 101)])]⟩,
        [("b1", none)], [("b1", 1)],
        [⟨0, "SYSTEM", none, none, "INFO"⟩, ⟨0, "SYSTEM", none, none, "INFO"⟩,
         ⟨1, "WARNING", some "T", some "b1", "WARNING"⟩,
         ⟨2, "DEPARTURE", some "T", some "b1", "INFO"⟩,
         ⟨3, "DISRUPTION", some "T", none, "WARNING"⟩,
         ⟨3, "COMPLETION", some "T", none, "INFO"⟩],
        ⟨1, 1, 0, 0, 0⟩, 5⟩ := by
    norm_num [simTick, disruptPhase, disruptStep, activeCount, movePhase, busyPhase,
      stepTrain, getTrain, findTrain, dictGet?, c6disr, c6sec]
  show logEvent (simLoop c6sec 1 4 [c6disr] 8 (initSimState c6sec [c6train])) _ _ _ _ _ = _
  rw [h0]
  rw [show (8 : ℕ) = 7 + 1 from rfl, simLoop, if_pos (by norm_num), h1]
  rw [show (7 : ℕ) = 6 + 1 from rfl, simLoop, if_pos (by norm_num), h2]
  rw [show (6 : ℕ) = 5 + 1 from rfl, simLoop, if_pos (by norm_num), h3]
  rw [show (5 : ℕ) = 4 + 1 from rfl, simLoop, if_pos (by norm_num), h4]
  rw [show (4 : ℕ) = 3 + 1 from rfl, simLoop, if_pos (by norm_num), h5]
  rw [show (3 : ℕ) = 2 + 1 from rfl, simLoop, if_neg (by norm_num)]
  rfl


/-- C6 counterexample: in the disrupted run the train completes at minute 3
(the COMPLETION event) with recorded delay `0`, but the claim's formula with
the *original* departure offset gives `max 0 (3 - (1 + 1)) = 1 ≠ 0`. -/
theorem C6_counterexample :
    (⟨3, "COMPLETION", some "T", none, "INFO"⟩ : Event) ∈
      (enhancedSimulate c6sec [c6train] 4 1 [c6disr] 8).events ∧
    dictGet? (enhancedSimulate c6sec [c6train] 4 1 [c6disr] 8).states "T" =
      some ⟨1, 2, true, 0, none⟩ ∧
    (0 : ℚ) ≠ max 0 (3 - (routeIdeal c6sec c6train + c6train.dep_time_min)) := by
  refine ⟨?_, ?_, ?_⟩
  · rw [c6RunEq]
    simp
  · rw [c6RunEq]
    simp [dictGet?]
  · have h1 : routeIdeal c6sec c6train + c6train.dep_time_min = 2 := by
      norm_num [routeIdeal, c6sec, c6train, getBlock, blockMap, stationTruthy,
        dictGet?, dictSet]
    rw [h1, max_eq_right (by norm_num : (0 : ℚ) ≤ 3 - 2)]
    norm_num

/-! ### C4: failed entry gates are not retried (code bug) -/

set_option maxHeartbeats 2000000 in
theorem c4RunEq :
    enhancedSimulate c4sec [c4train] 5 1 [c4disr] 10 =
      ⟨[⟨"T", 1, 60, 0, ["A", "B"], "up", 101, "X"⟩],
        [("T", ⟨2, 2, true, 0, none⟩)],
        ⟨[("T", [("A", 101), ("B", 102)])]⟩,
        [("A", none), ("B", none)], [("A", 1), ("B", 0)],
        [⟨0, "SYSTEM", none, none, "INFO"⟩, ⟨0, "SYSTEM", none, none, "INFO"⟩,
         ⟨1, "WARNING", some "T", some "A", "WARNING"⟩,
         ⟨2, "DEPARTURE", some "T", some "A", "INFO"⟩,
         ⟨3, "DISRUPTION", some "T", none, "WARNING"⟩,
         ⟨4, "COMPLETION", some "T", none, "INFO"⟩,
         ⟨6, "SYSTEM", none, none, "INFO"⟩],
        ⟨1, 1, 0, 0, 0⟩, 6⟩ := by
  have h0 : initSimState c4sec [c4train] =
      ⟨[c4train], [("T", ⟨0, 1, false, 0, none⟩)], ⟨[("T", [("A", 1), ("B", 2)])]⟩,
        [("A", none), ("B", none)], [("A", 0), ("B", 0)],
        [⟨0, "SYSTEM", none, none, "INFO"⟩, ⟨0, "SYSTEM", none, none, "INFO"⟩],
        ⟨1, 0, 0, 0, 0⟩, 0⟩ := by
    norm_num [initSimState, initEvents, optimize, optimizeFull, optStep, scheduleTrain,
      schedTrainGo, bumpEntry, occGet, dictGet?, dictSet, dictAppend, setEntryGo,
      getBlock, blockMap, optExitTime, stationTruthy, ScheduleDecision.setEntry,
      validateSchedule, buildOccupancyTimeline, buildOccInner, valBuildExitTime,
      adjChecks, pairCheck, checkHeadOn, buildHeadOnTimeline, buildHOInner,
      headOnScan, headOnWith, headOnPair, anyCritical, c4sec, c4train,
      List.insertionSort, List.orderedInsert, trainLE, entryLE]
    try simp [setEntryGo, dictSet]
    try norm_num
  have h1 : simTick c4sec 1 [c4disr] (⟨[c4train], [("T", ⟨0, 1, false, 0, none⟩)],
        ⟨[("T", [("A", 1), ("B", 2)])]⟩, [("A", none), ("B", none)], [("A", 0), ("B", 0)],
        [⟨0, "SYSTEM", none, none, "INFO"⟩, ⟨0, "SYSTEM", none, none, "INFO"⟩],
        ⟨1, 0, 0, 0, 0⟩, 0⟩ : SimState) =
      ⟨[c4train], [("T", ⟨0, 1, false, 0, none⟩)], ⟨[("T", [("A", 1), ("B", 2)])]⟩,
        [("A", none), ("B", none)], [("A", 0), ("B", 0)],
        [⟨0, "SYSTEM", none, none, "INFO"⟩, ⟨0, "SYSTEM", none, none, "INFO"⟩],
        ⟨1, 0, 0, 0, 0⟩, 1⟩ := by
    norm_num [simTick, disruptPhase, disruptStep, activeCount, movePhase, busyPhase,
      stepTrain, getTrain, findTrain, dictGet?, c4disr, c4train, c4sec]
    try simp [setEntryGo, dictSet]
    try norm_num
  have h2 : simTick c4sec 1 [c4disr] (⟨[c4train], [("T", ⟨0, 1, false, 0, none⟩)],
        ⟨[("T", [("A", 1), ("B", 2)])]⟩, [("A", none), ("B", none)], [("A", 0), ("B", 0)],
        [⟨0, "SYSTEM", none, none, "INFO"⟩, ⟨0, "SYSTEM", none, none, "INFO"⟩],
        ⟨1, 0, 0, 0, 0⟩, 1⟩ : SimState) =
      ⟨[c4train], [("T", ⟨0, 1, false, 0, none⟩)], ⟨[("T", [("A", 1), ("B", 2)])]⟩,
        [("A", none), ("B", none)], [("A", 0), ("B", 0)],
        [⟨0, "SYSTEM", none, none, "INFO"⟩, ⟨0, "SYSTEM", none, none, "INFO"⟩,
         ⟨1, "WARNING", some "T", some "A", "WARNING"⟩],
        ⟨1, 0, 0, 0, 0⟩, 2⟩ := by
    norm_num [simTick, disruptPhase, disruptStep, activeCount, movePhase, busyPhase,
      stepTrain, getTrain, findTrain, dictGet?, dictSet, logEvent, setTrainState,
      ScheduleDecision.getEntry, verifyBlockClearance, valClearExitTime, getBlock,
      blockMap, stationTruthy, c4disr, c4train, c4sec]
    try simp [setEntryGo, dictSet]
    try norm_num
  have h3 : simTick c4sec 1 [c4disr] (⟨[c4train], [("T", ⟨0, 1, false, 0, none⟩)],
        ⟨[("T", [("A", 1), ("B", 2)])]⟩, [("A", none), ("B", none)], [("A", 0), ("B", 0)],
        [⟨0, "SYSTEM", none, none, "INFO"⟩, ⟨0, "SYSTEM", none, none, "INFO"⟩,
         ⟨1, "WARNING", some "T", some "A", "WARNING"⟩],
        ⟨1, 0, 0, 0, 0⟩, 2⟩ : SimState) =
      ⟨[c4train], [("T", ⟨0, 2, false, 0, some "A"⟩)], ⟨[("T", [("A", 1), ("B", 2)])]⟩,
        [("A", some "T"), ("B", none)], [("A", 1), ("B", 0)],
        [⟨0, "SYSTEM", none, none, "INFO"⟩, ⟨0, "SYSTEM", none, none, "INFO"⟩,
         ⟨1, "WARNING", some "T", some "A", "WARNING"⟩,
         ⟨2, "DEPARTURE", some "T", some "A", "INFO"⟩],
        ⟨1, 0, 0, 0, 0⟩, 3⟩ := by
    norm_num [simTick, disruptPhase, disruptStep, activeCount, movePhase, busyPhase,
      stepTrain, getTrain, findTrain, dictGet?, dictSet, logEvent, setTrainState,
      ScheduleDecision.getEntry, verifyBlockClearance, valClearExitTime, getBlock,
      blockMap, stationTruthy, c4disr, c4train, c4sec]
    try simp [setEntryGo, dictSet]
    try norm_num
  have h4 : simTick c4sec 1 [c4disr] (⟨[c4train], [("T", ⟨0, 2, false, 0, some "A"⟩)],
        ⟨[("T", [("A", 1), ("B", 2)])]⟩, [("A", some "T"), ("B", none)],
        [("A", 1), ("B", 0)],
        [⟨0, "SYSTEM", none, none, "INFO"⟩, ⟨0, "SYSTEM", none, none, "INFO"⟩,
         ⟨1, "WARNING", some "T", some "A", "WARNING"⟩,
         ⟨2, "DEPARTURE", some "T", some "A", "INFO"⟩],
        ⟨1, 0, 0, 0, 0⟩, 3⟩ : SimState) =
      ⟨[⟨"T", 1, 60, 0, ["A", "B"], "up", 101, "X"⟩],
        [("T", ⟨1, 2, false, 0, some "A"⟩)], ⟨[("T", [("A", 101), ("B", 102)])]⟩,
        [("A", none), ("B", none)], [("A", 1), ("B", 0)],
        [⟨0, "SYSTEM", none, none, "INFO"⟩, ⟨0, "SYSTEM", none, none, "INFO"⟩,
         ⟨1, "WARNING", some "T", some "A", "WARNING"⟩,
         ⟨2, "DEPARTURE", some "T", some "A", "INFO"⟩,
         ⟨3, "DISRUPTION", some "T", none, "WARNING"⟩],
        ⟨1, 0, 1, 0, 0⟩, 4⟩ := by
    norm_num [simTick, disruptPhase, disruptStep, applyDisruption, hasKey, activeTrains,
      activeCount, movePhase, busyPhase, stepTrain, getTrain, findTrain, dictGet?,
      dictSet, logEvent, setTrainState, ScheduleDecision.getEntry,
      ScheduleDecision.setEntry, verifyBlockClearance, valClearExitTime, getBlock,
      blockMap, stationTruthy, routeIdeal, isCrossingPoint, approachCount,
      optimize, optimizeFull, optStep, scheduleTrain, schedTrainGo, bumpEntry,
      occGet, dictAppend, setEntryGo, optExitTime, validateSchedule,
      buildOccupancyTimeline, buildOccInner, valBuildExitTime, adjChecks,
      pairCheck, checkHeadOn, buildHeadOnTimeline, buildHOInner, headOnScan,
      headOnWith, headOnPair, anyCritical, c4disr, c4train, c4sec,
      List.insertionSort, List.orderedInsert, trainLE, entryLE]
    try simp [setEntryGo, dictSet]
    try norm_num
  have h5 : simTick c4sec 1 [c4disr] (⟨[⟨"T", 1, 60, 0, ["A", "B"], "up", 101, "X"⟩],
        [("T", ⟨1, 2, false, 0, some "A"⟩)], ⟨[("T", [("A", 101), ("B", 102)])]⟩,
        [("A", none), ("B", none)], [("A", 1), ("B", 0)],
        [⟨0, "SYSTEM", none, none, "INFO"⟩, ⟨0, "SYSTEM", none, none, "INFO"⟩,
         ⟨1, "WARNING", some "T", some "A", "WARNING"⟩,
         ⟨2, "DEPARTURE", some "T", some "A", "INFO"⟩,
         ⟨3, "DISRUPTION", some "T", none, "WARNING"⟩],
        ⟨1, 0, 1, 0, 0⟩, 4⟩ : SimState) =
      ⟨[⟨"T", 1, 60, 0, ["A", "B"], "up", 101, "X"⟩],
        [("T", ⟨2, 2, true, 0, none⟩)], ⟨[("T", [("A", 101), ("B", 102)])]⟩,
        [("A", none), ("B", none)], [("A", 1), ("B", 0)],
        [⟨0, "SYSTEM", none, none, "INFO"⟩, ⟨0, "SYSTEM", none, none, "INFO"⟩,
         ⟨1, "WARNING", some "T", some "A", "WARNING"⟩,
         ⟨2, "DEPARTURE", some "T", some "A", "INFO"⟩,
         ⟨3, "DISRUPTION", some "T", none, "WARNING"⟩,
         ⟨4, "COMPLETION", some "T", none, "INFO"⟩],
        ⟨1, 1, 1, 0, 0⟩, 5⟩ := by
    norm_num [simTick, disruptPhase, disruptStep, activeCount, movePhase, busyPhase,
      stepTrain, getTrain, findTrain, dictGet?, dictSet, logEvent, setTrainState,
      ScheduleDecision.getEntry, verifyBlockClearance, valClearExitTime, getBlock,
      blockMap, stationTruthy, routeIdeal, isCrossingPoint, approachCount,
      c4disr, c4sec]
    try simp [setEntryGo, dictSet]
    try norm_num
  have h6 : simTick c4sec 1 [c4disr] (⟨[⟨"T", 1, 60, 0, ["A", "B"], "up", 101, "X"⟩],
        [("T", ⟨2, 2, true, 0, none⟩)], ⟨[("T", [("A", 101), ("B", 102)])]⟩,
        [("A", none), ("B", none)], [("A", 1), ("B", 0)],
        [⟨0, "SYSTEM", none, none, "INFO"⟩, ⟨0, "SYSTEM", none, none, "INFO"⟩,
         ⟨1, "WARNING", some "T", some "A", "WARNING"⟩,
         ⟨2, "DEPARTURE", some "T", some "A", "INFO"⟩,
         ⟨3, "DISRUPTION", some "T", none, "WARNING"⟩,
         ⟨4, "COMPLETION", some "T", none, "INFO"⟩],
        ⟨1, 1, 1, 0, 0⟩, 5⟩ : SimState) =
      ⟨[⟨"T", 1, 60, 0, ["A", "B"], "up", 101, "X"⟩],
        [("T", ⟨2, 2, true, 0, none⟩)], ⟨[("T", [("A", 101), ("B", 102)])]⟩,
        [("A", none), ("B", none)], [("A", 1), ("B", 0)],
        [⟨0, "SYSTEM", none, none, "INFO"⟩, ⟨0, "SYSTEM", none, none, "INFO"⟩,
         ⟨1, "WARNING", some "T", some "A", "WARNING"⟩,
         ⟨2, "DEPARTURE", some "T", some "A", "INFO"⟩,
         ⟨3, "DISRUPTION", some "T", none, "WARNING"⟩,
         ⟨4, "COMPLETION", some "T", none, "INFO"⟩],
        ⟨1, 1, 0, 0, 0⟩, 6⟩ := by
    norm_num [simTick, disruptPhase, disruptStep, activeCount, movePhase, busyPhase,
      stepTrain, getTrain, findTrain, dictGet?, c4disr, c4sec]
    try simp [setEntryGo, dictSet]
    try norm_num
  show logEvent (simLoop c4sec 1 5 [c4disr] 10 (initSimState c4sec [c4train])) _ _ _ _ _ = _
  rw [h0]
  rw [show (10 : ℕ) = 9 + 1 from rfl, simLoop, if_pos (by norm_num), h1]
  rw [show (9 : ℕ) = 8 + 1 from rfl, simLoop, if_pos (by norm_num), h2]
  rw [show (8 : ℕ) = 7 + 1 from rfl, simLoop, if_pos (by norm_num), h3]
  rw [show (7 : ℕ) = 6 + 1 from rfl, simLoop, if_pos (by norm_num), h4]
  rw [show (6 : ℕ) = 5 + 1 from rfl, simLoop, if_pos (by norm_num), h5]
  rw [show (5 : ℕ) = 4 + 1 from rfl, simLoop, if_pos (by norm_num), h6]
  rw [show (4 : ℕ) = 3 + 1 from rfl, simLoop, if_neg (by norm_num)]
  rfl


/-- C4: refuted by the code — in this run the entry gate for block `B` fails at
minute 3 (scheduled entry 102), yet the tick advances the train past `B`: the
final state is finished with `route_index = 2`, block `B` accrues zero busy
time, the only `WARNING`-typed event is the minute-1 hold on `A` (the failed
entry to `B` logs nothing), and the entry is never retried. -/
theorem C4_failed_entry_skips_block :
    dictGet? (enhancedSimulate c4sec [c4train] 5 1 [c4disr] 10).states "T" =
      some ⟨2, 2, true, 0, none⟩ ∧
    dictGet? (enhancedSimulate c4sec [c4train] 5 1 [c4disr] 10).busy "B" = some 0 ∧
    dictGet? (enhancedSimulate c4sec [c4train] 5 1 [c4disr] 10).schedule.entries "T" =
      some [("A", 101), ("B", 102)] ∧
    (enhancedSimulate c4sec [c4train] 5 1 [c4disr] 10).events.filter
        (fun e => e.event_type == "WARNING") =
      [⟨1, "WARNING", some "T", some "A", "WARNING"⟩] := by
  rw [c4RunEq]
  refine ⟨?_, ?_, ?_, ?_⟩ <;> simp [dictGet?, List.filter]

/-! ### C10: zero scheduled entry is never admitted -/

theorem logEvent_schedule (s : SimState) (ts : ℚ) (et : String) (tid bid : Option String)
    (sev : String) : (logEvent s ts et tid bid sev).schedule = s.schedule := rfl

theorem logEvent_trains (s : SimState) (ts : ℚ) (et : String) (tid bid : Option String)
    (sev : String) : (logEvent s ts et tid bid sev).trains = s.trains := rfl

theorem stepTrain_schedule (sec : Section) (s : SimState) (tid : String) :
    (stepTrain sec s tid).schedule = s.schedule := by
  cases hst : dictGet? s.states tid with
  | none => simp only [stepTrain, hst]
  | some st =>
    simp only [stepTrain, hst]
    by_cases hf : st.finished = true
    · rw [if_pos hf]
    · rw [if_neg hf]
      repeat' split
      all_goals rfl

theorem stepTrain_trains (sec : Section) (s : SimState) (tid : String) :
    (stepTrain sec s tid).trains = s.trains := by
  cases hst : dictGet? s.states tid with
  | none => simp only [stepTrain, hst]
  | some st =>
    simp only [stepTrain, hst]
    by_cases hf : st.finished = true
    · rw [if_pos hf]
    · rw [if_neg hf]
      repeat' split
      all_goals rfl

theorem stepTrain_time (sec : Section) (s : SimState) (tid : String) :
    (stepTrain sec s tid).time = s.time := by
  cases hst : dictGet? s.states tid with
  | none => simp only [stepTrain, hst]
  | some st =>
    simp only [stepTrain, hst]
    by_cases hf : st.finished = true
    · rw [if_pos hf]
    · rw [if_neg hf]
      repeat' split
      all_goals rfl

theorem stepTrain_states_ne (sec : Section) (s : SimState) (tid tid' : String)
    (h : tid ≠ tid') :
    dictGet? (stepTrain sec s tid').states tid = dictGet? s.states tid := by
  cases hst : dictGet? s.states tid' with
  | none => simp only [stepTrain, hst]
  | some st =>
    simp only [stepTrain, hst]
    by_cases hf : st.finished = true
    · rw [if_pos hf]
    · rw [if_neg hf]
      repeat' split
      all_goals
        first
        | rfl
        | (simp only [logEvent_states, setTrainState_states,
             apply_ite (fun x : SimState => x.states), ite_self]
           rw [dictGet?_dictSet, if_neg h])


theorem stepTrain_zero_first (sec : Section) (s : SimState) (tid : String)
    (st : SimTrainState)
    (h1 : dictGet? s.states tid = some st) (h2 : st.finished = false)
    (h4 : st.location = none)
    (h5 : ∀ fb rest, (getTrain s tid).route = fb :: rest →
      s.schedule.getEntry tid fb = some 0) :
    stepTrain sec s tid = s := by
  have hnf : ¬ (st.finished = true) := by rw [h2]; exact Bool.false_ne_true
  simp only [stepTrain, h1]
  rw [if_neg hnf]
  by_cases hc : st.route_index = 0 ∧ (getTrain s tid).dep_time_min ≤ s.time
  · rw [if_pos hc]
    cases hr : (getTrain s tid).route with
    | nil => simp only [hr]
    | cons fb rest =>
      simp only [hr, h5 fb rest hr]
      simp
  · rw [if_neg hc]
    simp only [h4]

theorem stepTrain_no_admit (sec : Section) (s : SimState) (tid : String)
    (st st' : SimTrainState) (bid : String)
    (h1 : dictGet? s.states tid = some st)
    (h0 : s.schedule.getEntry tid bid = some 0)
    (h2 : st.location ≠ some bid)
    (h3 : dictGet? (stepTrain sec s tid).states tid = some st') :
    st'.location ≠ some bid := by
  by_cases hf : st.finished = true
  · simp only [stepTrain, h1, if_pos hf] at h3
    cases h3
    exact h2
  · simp only [stepTrain, h1] at h3
    rw [if_neg hf] at h3
    repeat' split at h3
    all_goals
      first
      | (rw [h1] at h3
         cases h3
         exact h2)
      | (simp only [logEvent_states] at h3
         rw [h1] at h3
         cases h3
         exact h2)
      | (simp only [logEvent_states, setTrainState_states,
           apply_ite (fun x : SimState => x.states), ite_self] at h3
         rw [dictGet?_dictSet, if_pos rfl] at h3
         cases h3
         first
         | exact h2
         | exact fun hco => Option.noConfusion hco
         | (intro hco
            simp at hco
            subst hco
            simp_all [logEvent_schedule, apply_ite (fun x : SimState => x.schedule)]))


theorem getTrain_congr (s s' : SimState) (tid : String) (h : s'.trains = s.trains) :
    getTrain s' tid = getTrain s tid := by
  unfold getTrain
  rw [h]

theorem foldStep_keep (sec : Section) (tids : List String) :
    ∀ (s : SimState) (tid : String) (st : SimTrainState),
      dictGet? s.states tid = some st → st.finished = false →
      st.location = none →
      (∀ fb rest, (getTrain s tid).route = fb :: rest →
        s.schedule.getEntry tid fb = some 0) →
      dictGet? (tids.foldl (stepTrain sec) s).states tid = some st ∧
      (tids.foldl (stepTrain sec) s).schedule = s.schedule ∧
      (tids.foldl (stepTrain sec) s).trains = s.trains := by
  induction tids with
  | nil =>
    intro s tid st h1 _ _ _
    exact ⟨h1, rfl, rfl⟩
  | cons t rest ih =>
    intro s tid st h1 h2 h4 h5
    simp only [List.foldl_cons]
    by_cases he : t = tid
    · subst he
      rw [stepTrain_zero_first sec s t st h1 h2 h4 h5]
      exact ih s t st h1 h2 h4 h5
    · have hne : tid ≠ t := fun hh => he hh.symm
      have hsch : (stepTrain sec s t).schedule = s.schedule := stepTrain_schedule sec s t
      have htr : (stepTrain sec s t).trains = s.trains := stepTrain_trains sec s t
      have hs1 : dictGet? (stepTrain sec s t).states tid = some st := by
        rw [stepTrain_states_ne sec s tid t hne]
        exact h1
      have h5' : ∀ fb rest2, (getTrain (stepTrain sec s t) tid).route = fb :: rest2 →
          (stepTrain sec s t).schedule.getEntry tid fb = some 0 := by
        intro fb rest2 hr
        rw [hsch]
        rw [getTrain_congr s (stepTrain sec s t) tid htr] at hr
        exact h5 fb rest2 hr
      obtain ⟨a, b, c⟩ := ih (stepTrain sec s t) tid st hs1 h2 h4 h5'
      exact ⟨a, b.trans hsch, c.trans htr⟩

theorem simTick_keep (sec : Section) (step : ℚ) (s : SimState) (tid : String)
    (st : SimTrainState)
    (h1 : dictGet? s.states tid = some st) (h2 : st.finished = false)
    (h4 : st.location = none)
    (h5 : ∀ fb rest, (getTrain s tid).route = fb :: rest →
      s.schedule.getEntry tid fb = some 0) :
    dictGet? (simTick sec step [] s).states tid = some st ∧
    (simTick sec step [] s).schedule = s.schedule ∧
    (simTick sec step [] s).trains = s.trains :=
  foldStep_keep sec (s.states.map Prod.fst)
    { s with kpis := { s.kpis with active_trains := activeCount s.states } }
    tid st h1 h2 h4 h5

theorem simLoop_keep (sec : Section) (step maxT : ℚ) (fuel : ℕ) :
    ∀ (s : SimState) (tid : String) (st : SimTrainState),
      dictGet? s.states tid = some st → st.finished = false → st.location = none →
      (∀ fb rest, (getTrain s tid).route = fb :: rest →
        s.schedule.getEntry tid fb = some 0) →
      dictGet? (simLoop sec step maxT [] fuel s).states tid = some st ∧
      (simLoop sec step maxT [] fuel s).schedule = s.schedule ∧
      (simLoop sec step maxT [] fuel s).trains = s.trains := by
  induction fuel with
  | zero =>
    intro s tid st h1 _ _ _
    exact ⟨h1, rfl, rfl⟩
  | succ n ih =>
    intro s tid st h1 h2 h4 h5
    rw [simLoop]
    by_cases ht : s.time ≤ maxT
    · rw [if_pos ht]
      obtain ⟨a, b, c⟩ := simTick_keep sec step s tid st h1 h2 h4 h5
      have h5' : ∀ fb rest, (getTrain (simTick sec step [] s) tid).route = fb :: rest →
          (simTick sec step [] s).schedule.getEntry tid fb = some 0 := by
        intro fb rest hr
        rw [b]
        rw [getTrain_congr s (simTick sec step [] s) tid c] at hr
        exact h5 fb rest hr
      obtain ⟨a2, b2, c2⟩ := ih (simTick sec step [] s) tid st a h2 h4 h5'
      exact ⟨a2, b2.trans b, c2.trans c⟩
    · rw [if_neg ht]
      exact ⟨h1, rfl, rfl⟩


theorem initStates_nolookup (trains : List Train) :
    ∀ (d : List (String × SimTrainState)) (tid : String),
      (∀ t ∈ trains, t.id ≠ tid) →
      dictGet? (trains.foldl
        (fun d t => dictSet d t.id ⟨0, t.dep_time_min, false, 0, none⟩) d) tid =
        dictGet? d tid := by
  induction trains with
  | nil =>
    intro d tid _
    rfl
  | cons t rest ih =>
    intro d tid hall
    simp only [List.foldl_cons]
    rw [ih (dictSet d t.id ⟨0, t.dep_time_min, false, 0, none⟩) tid
      (fun t' ht' => hall t' (List.mem_cons_of_mem t ht'))]
    rw [dictGet?_dictSet]
    rw [if_neg (fun he => hall t (List.mem_cons_self t rest) he.symm)]

theorem initStates_lookup (trains : List Train) :
    ∀ (d : List (String × SimTrainState)) (tid : String) (train : Train),
      findTrain trains tid = some train →
      (trains.map Train.id).Nodup →
      dictGet? (trains.foldl
        (fun d t => dictSet d t.id ⟨0, t.dep_time_min, false, 0, none⟩) d) tid =
        some ⟨0, train.dep_time_min, false, 0, none⟩ := by
  induction trains with
  | nil =>
    intro d tid train hf _
    exact absurd hf (by simp [findTrain])
  | cons t rest ih =>
    intro d tid train hf hnd
    simp only [List.map_cons, List.nodup_cons] at hnd
    simp only [List.foldl_cons]
    by_cases he : t.id = tid
    · rw [findTrain, if_pos he] at hf
      cases hf
      have hall : ∀ t' ∈ rest, t'.id ≠ tid := by
        intro t' ht' hco
        exact hnd.1 (he ▸ hco ▸ List.mem_map_of_mem Train.id ht')
      rw [initStates_nolookup rest _ tid hall]
      rw [dictGet?_dictSet, if_pos he.symm]
    · rw [findTrain, if_neg he] at hf
      exact ih _ tid train hf hnd.2

theorem enhancedRun_zero_entry_stuck (sec : Section) (trains : List Train)
    (maxT step : ℚ) (fuel : ℕ) (tid : String) (train : Train)
    (hf : findTrain trains tid = some train)
    (hnd : (trains.map Train.id).Nodup)
    (h0 : ∀ fb rest, train.route = fb :: rest →
      (optimize sec trains 0).getEntry tid fb = some 0) :
    dictGet? (enhancedSimulate sec trains maxT step [] fuel).states tid =
      some ⟨0, train.dep_time_min, false, 0, none⟩ := by
  have h1 : dictGet? (initSimState sec trains).states tid =
      some ⟨0, train.dep_time_min, false, 0, none⟩ :=
    initStates_lookup trains [] tid train hf hnd
  have hg : getTrain (initSimState sec trains) tid = train := by
    unfold getTrain
    show (findTrain trains tid).getD default = train
    rw [hf]
    rfl
  have h5 : ∀ fb rest, (getTrain (initSimState sec trains) tid).route = fb :: rest →
      (initSimState sec trains).schedule.getEntry tid fb = some 0 := by
    intro fb rest hr
    rw [hg] at hr
    exact h0 fb rest hr
  obtain ⟨a, _, _⟩ := simLoop_keep sec step maxT fuel (initSimState sec trains) tid
    ⟨0, train.dep_time_min, false, 0, none⟩ h1 rfl rfl h5
  show dictGet? (logEvent (simLoop sec step maxT [] fuel (initSimState sec trains))
    _ _ _ _ _).states tid = _
  rw [logEvent_states]
  exact a


theorem setTrainStateB_states (s : BasicState) (tid : String) (st : SimTrainState) :
    (setTrainStateB s tid st).states = dictSet s.states tid st := rfl

theorem stepTrainB_schedule (sec : Section) (s : BasicState) (tid : String) :
    (stepTrainB sec s tid).schedule = s.schedule := by
  cases hst : dictGet? s.states tid with
  | none => simp only [stepTrainB, hst]
  | some st =>
    simp only [stepTrainB, hst]
    by_cases hf : st.finished = true
    · rw [if_pos hf]
    · rw [if_neg hf]
      repeat' split
      all_goals rfl

theorem stepTrainB_trains (sec : Section) (s : BasicState) (tid : String) :
    (stepTrainB sec s tid).trains = s.trains := by
  cases hst : dictGet? s.states tid with
  | none => simp only [stepTrainB, hst]
  | some st =>
    simp only [stepTrainB, hst]
    by_cases hf : st.finished = true
    · rw [if_pos hf]
    · rw [if_neg hf]
      repeat' split
      all_goals rfl

theorem stepTrainB_states_ne (sec : Section) (s : BasicState) (tid tid' : String)
    (h : tid ≠ tid') :
    dictGet? (stepTrainB sec s tid').states tid = dictGet? s.states tid := by
  cases hst : dictGet? s.states tid' with
  | none => simp only [stepTrainB, hst]
  | some st =>
    simp only [stepTrainB, hst]
    by_cases hf : st.finished = true
    · rw [if_pos hf]
    · rw [if_neg hf]
      repeat' split
      all_goals
        first
        | rfl
        | (simp only [setTrainStateB_states]
           rw [dictGet?_dictSet, if_neg h])

theorem stepTrainB_zero_first (sec : Section) (s : BasicState) (tid : String)
    (st : SimTrainState)
    (h1 : dictGet? s.states tid = some st) (h2 : st.finished = false)
    (h4 : st.location = none)
    (h5 : ∀ fb rest, (getTrainB s tid).route = fb :: rest →
      s.schedule.getEntry tid fb = some 0) :
    stepTrainB sec s tid = s := by
  have hnf : ¬ (st.finished = true) := by rw [h2]; exact Bool.false_ne_true
  simp only [stepTrainB, h1]
  rw [if_neg hnf]
  by_cases hc : st.route_index = 0 ∧ (getTrainB s tid).dep_time_min ≤ s.time
  · rw [if_pos hc]
    cases hr : (getTrainB s tid).route with
    | nil => simp only [hr]
    | cons fb rest =>
      simp only [hr, h5 fb rest hr]
      simp
  · rw [if_neg hc]
    simp only [h4]

theorem stepTrainB_no_admit (sec : Section) (s : BasicState) (tid : String)
    (st st' : SimTrainState) (bid : String)
    (h1 : dictGet? s.states tid = some st)
    (h0 : s.schedule.getEntry tid bid = some 0)
    (h2 : st.location ≠ some bid)
    (h3 : dictGet? (stepTrainB sec s tid).states tid = some st') :
    st'.location ≠ some bid := by
  by_cases hf : st.finished = true
  · simp only [stepTrainB, h1, if_pos hf] at h3
    cases h3
    exact h2
  · simp only [stepTrainB, h1] at h3
    rw [if_neg hf] at h3
    repeat' split at h3
    all_goals
      first
      | (rw [h1] at h3
         cases h3
         exact h2)
      | (simp only [setTrainStateB_states] at h3
         rw [dictGet?_dictSet, if_pos rfl] at h3
         cases h3
         first
         | exact h2
         | exact fun hco => Option.noConfusion hco
         | (intro hco
            simp at hco
            subst hco
            simp_all))

theorem getTrainB_congr (s s' : BasicState) (tid : String) (h : s'.trains = s.trains) :
    getTrainB s' tid = getTrainB s tid := by
  unfold getTrainB
  rw [h]

theorem foldStepB_keep (sec : Section) (tids : List String) :
    ∀ (s : BasicState) (tid : String) (st : SimTrainState),
      dictGet? s.states tid = some st → st.finished = false →
      st.location = none →
      (∀ fb rest, (getTrainB s tid).route = fb :: rest →
        s.schedule.getEntry tid fb = some 0) →
      dictGet? (tids.foldl (stepTrainB sec) s).states tid = some st ∧
      (tids.foldl (stepTrainB sec) s).schedule = s.schedule ∧
      (tids.foldl (stepTrainB sec) s).trains = s.trains := by
  induction tids with
  | nil =>
    intro s tid st h1 _ _ _
    exact ⟨h1, rfl, rfl⟩
  | cons t rest ih =>
    intro s tid st h1 h2 h4 h5
    simp only [List.foldl_cons]
    by_cases he : t = tid
    · subst he
      rw [stepTrainB_zero_first sec s t st h1 h2 h4 h5]
      exact ih s t st h1 h2 h4 h5
    · have hne : tid ≠ t := fun hh => he hh.symm
      have hsch : (stepTrainB sec s t).schedule = s.schedule := stepTrainB_schedule sec s t
      have htr : (stepTrainB sec s t).trains = s.trains := stepTrainB_trains sec s t
      have hs1 : dictGet? (stepTrainB sec s t).states tid = some st := by
        rw [stepTrainB_states_ne sec s tid t hne]
        exact h1
      have h5' : ∀ fb rest2, (getTrainB (stepTrainB sec s t) tid).route = fb :: rest2 →
          (stepTrainB sec s t).schedule.getEntry tid fb = some 0 := by
        intro fb rest2 hr
        rw [hsch]
        rw [getTrainB_congr s (stepTrainB sec s t) tid htr] at hr
        exact h5 fb rest2 hr
      obtain ⟨a, b, c⟩ := ih (stepTrainB sec s t) tid st hs1 h2 h4 h5'
      exact ⟨a, b.trans hsch, c.trans htr⟩

theorem simTickB_keep (sec : Section) (step : ℚ) (s : BasicState) (tid : String)
    (st : SimTrainState)
    (h1 : dictGet? s.states tid = some st) (h2 : st.finished = false)
    (h4 : st.location = none)
    (h5 : ∀ fb rest, (getTrainB s tid).route = fb :: rest →
      s.schedule.getEntry tid fb = some 0) :
    dictGet? (simTickB sec step [] s).states tid = some st ∧
    (simTickB sec step [] s).schedule = s.schedule ∧
    (simTickB sec step [] s).trains = s.trains :=
  foldStepB_keep sec (s.states.map Prod.fst) s tid st h1 h2 h4 h5

theorem simLoopB_keep (sec : Section) (step maxT : ℚ) (fuel : ℕ) :
    ∀ (s : BasicState) (tid : String) (st : SimTrainState),
      dictGet? s.states tid = some st → st.finished = false → st.location = none →
      (∀ fb rest, (getTrainB s tid).route = fb :: rest →
        s.schedule.getEntry tid fb = some 0) →
      dictGet? (simLoopB sec step maxT [] fuel s).states tid = some st ∧
      (simLoopB sec step maxT [] fuel s).schedule = s.schedule ∧
      (simLoopB sec step maxT [] fuel s).trains = s.trains := by
  induction fuel with
  | zero =>
    intro s tid st h1 _ _ _
    exact ⟨h1, rfl, rfl⟩
  | succ n ih =>
    intro s tid st h1 h2 h4 h5
    rw [simLoopB]
    by_cases ht : s.time ≤ maxT
    · rw [if_pos ht]
      obtain ⟨a, b, c⟩ := simTickB_keep sec step s tid st h1 h2 h4 h5
      have h5' : ∀ fb rest, (getTrainB (simTickB sec step [] s) tid).route = fb :: rest →
          (simTickB sec step [] s).schedule.getEntry tid fb = some 0 := by
        intro fb rest hr
        rw [b]
        rw [getTrainB_congr s (simTickB sec step [] s) tid c] at hr
        exact h5 fb rest hr
      obtain ⟨a2, b2, c2⟩ := ih (simTickB sec step [] s) tid st a h2 h4 h5'
      exact ⟨a2, b2.trans b, c2.trans c⟩
    · rw [if_neg ht]
      exact ⟨h1, rfl, rfl⟩

theorem basicRun_zero_entry_stuck (sec : Section) (trains : List Train)
    (maxT step : ℚ) (fuel : ℕ) (tid : String) (train : Train)
    (hf : findTrain trains tid = some train)
    (hnd : (trains.map Train.id).Nodup)
    (h0 : ∀ fb rest, train.route = fb :: rest →
      (optimize sec trains 0).getEntry tid fb = some 0) :
    dictGet? (basicSimulate sec trains maxT step [] fuel).states tid =
      some ⟨0, train.dep_time_min, false, 0, none⟩ := by
  have h1 : dictGet? (initBasicState sec trains).states tid =
      some ⟨0, train.dep_time_min, false, 0, none⟩ :=
    initStates_lookup trains [] tid train hf hnd
  have hg : getTrainB (initBasicState sec trains) tid = train := by
    unfold getTrainB
    show (findTrain trains tid).getD default = train
    rw [hf]
    rfl
  have h5 : ∀ fb rest, (getTrainB (initBasicState sec trains) tid).route = fb :: rest →
      (initBasicState sec trains).schedule.getEntry tid fb = some 0 := by
    intro fb rest hr
    rw [hg] at hr
    exact h0 fb rest hr
  obtain ⟨a, _, _⟩ := simLoopB_keep sec step maxT fuel (initBasicState sec trains) tid
    ⟨0, train.dep_time_min, false, 0, none⟩ h1 rfl rfl h5
  exact a


/-- C10: in both simulators the entry gate tests the truthiness of the
scheduled entry, so a train whose scheduled entry for a block is exactly `0`
is never admitted into that block on any tick; and in a disruption-free run a
train whose first-block entry is scheduled at exactly `0` never departs and is
never marked finished. -/
theorem C10_zero_entry_never_admitted :
    (∀ (sec : Section) (s : SimState) (tid : String) (st st' : SimTrainState)
        (bid : String),
        dictGet? s.states tid = some st →
        s.schedule.getEntry tid bid = some 0 →
        st.location ≠ some bid →
        dictGet? (stepTrain sec s tid).states tid = some st' →
        st'.location ≠ some bid) ∧
    (∀ (sec : Section) (s : BasicState) (tid : String) (st st' : SimTrainState)
        (bid : String),
        dictGet? s.states tid = some st →
        s.schedule.getEntry tid bid = some 0 →
        st.location ≠ some bid →
        dictGet? (stepTrainB sec s tid).states tid = some st' →
        st'.location ≠ some bid) ∧
    (∀ (sec : Section) (trains : List Train) (maxT step : ℚ) (fuel : ℕ)
        (tid : String) (train : Train),
        findTrain trains tid = some train →
        (trains.map Train.id).Nodup →
        (∀ fb rest, train.route = fb :: rest →
          (optimize sec trains 0).getEntry tid fb = some 0) →
        dictGet? (enhancedSimulate sec trains maxT step [] fuel).states tid =
          some ⟨0, train.dep_time_min, false, 0, none⟩) ∧
    (∀ (sec : Section) (trains : List Train) (maxT step : ℚ) (fuel : ℕ)
        (tid : String) (train : Train),
        findTrain trains tid = some train →
        (trains.map Train.id).Nodup →
        (∀ fb rest, train.route = fb :: rest →
          (optimize sec trains 0).getEntry tid fb = some 0) →
        dictGet? (basicSimulate sec trains maxT step [] fuel).states tid =
          some ⟨0, train.dep_time_min, false, 0, none⟩) :=
  ⟨fun sec s tid st st' bid h1 h0 h2 h3 =>
      stepTrain_no_admit sec s tid st st' bid h1 h0 h2 h3,
   fun sec s tid st st' bid h1 h0 h2 h3 =>
      stepTrainB_no_admit sec s tid st st' bid h1 h0 h2 h3,
   fun sec trains maxT step fuel tid train hf hnd h0 =>
      enhancedRun_zero_entry_stuck sec trains maxT step fuel tid train hf hnd h0,
   fun sec trains maxT step fuel tid train hf hnd h0 =>
      basicRun_zero_entry_stuck sec trains maxT step fuel tid train hf hnd h0⟩

/-- C10 witness: the single-train scenario whose optimized entry at its first
block `"A"` is exactly `0`: the per-tick parts and both full runs leave the
train parked. -/
theorem C10_witness :
    ((⟨0, 0, false, 0, none⟩ : SimTrainState).location ≠ some "A") ∧
    ((⟨0, 0, false, 0, none⟩ : SimTrainState).location ≠ some "A") ∧
    dictGet? (enhancedSimulate c10sec [c10train] 2 1 [] 4).states "T" =
      some ⟨0, c10train.dep_time_min, false, 0, none⟩ ∧
    dictGet? (basicSimulate c10sec [c10train] 2 1 [] 4).states "T" =
      some ⟨0, c10train.dep_time_min, false, 0, none⟩ :=
  ⟨C10_zero_entry_never_admitted.1 c10sec c10wState "T"
      ⟨0, 0, false, 0, none⟩ ⟨0, 0, false, 0, none⟩ "A"
      (by simp [c10wState, dictGet?])
      (by simp [c10wState, ScheduleDecision.getEntry, dictGet?])
      (by simp)
      (by norm_num [stepTrain, c10wState, c10train, getTrain, findTrain, dictGet?,
        ScheduleDecision.getEntry]),
   C10_zero_entry_never_admitted.2.1 c10sec c10wStateB "T"
      ⟨0, 0, false, 0, none⟩ ⟨0, 0, false, 0, none⟩ "A"
      (by simp [c10wStateB, dictGet?])
      (by simp [c10wStateB, ScheduleDecision.getEntry, dictGet?])
      (by simp)
      (by norm_num [stepTrainB, c10wStateB, c10train, getTrainB, findTrain, dictGet?,
        ScheduleDecision.getEntry]),
   C10_zero_entry_never_admitted.2.2.1 c10sec [c10train] 2 1 4 "T" c10train
      (by simp [findTrain, c10train])
      (by simp [c10train])
      (by
        intro fb rest h
        simp only [c10train, List.cons.injEq] at h
        obtain ⟨rfl, rfl⟩ := h
        norm_num [optimize, optimizeFull, optStep, scheduleTrain, schedTrainGo,
          bumpEntry, occGet, dictGet?, dictSet, dictAppend, setEntryGo, getBlock,
          blockMap, optExitTime, stationTruthy, ScheduleDecision.setEntry,
          ScheduleDecision.getEntry, c10sec, c10train, List.insertionSort,
          List.orderedInsert, trainLE]),
   C10_zero_entry_never_admitted.2.2.2 c10sec [c10train] 2 1 4 "T" c10train
      (by simp [findTrain, c10train])
      (by simp [c10train])
      (by
        intro fb rest h
        simp only [c10train, List.cons.injEq] at h
        obtain ⟨rfl, rfl⟩ := h
        norm_num [optimize, optimizeFull, optStep, scheduleTrain, schedTrainGo,
          bumpEntry, occGet, dictGet?, dictSet, dictAppend, setEntryGo, getBlock,
          blockMap, optExitTime, stationTruthy, ScheduleDecision.setEntry,
          ScheduleDecision.getEntry, c10sec, c10train, List.insertionSort,
          List.orderedInsert, trainLE])⟩

end TTC
